import Mathlib

/-!
Shallow embedding of the editing core of the `Level_Editor` repository
(`src/level_editor.py`): attribute model, undo engine (`Undo`), manipulator
release logic (`GizmoArrow.drop`, `RotationGizmo.drop`, `ScaleGizmo.drop`),
deletion (`Deleter.delete_selected`), scene persistence
(`LevelEditorScene.save` / `LevelEditorScene.load`) and scene-grid navigation
(`LevelMenu`).

Modelling conventions:
* Python floats are modelled as exact rationals (`ℚ`); the source comparison
  `distance(a, b) > 0.0001` is embedded as squared distance `> (1/10000)^2`,
  which is equivalent for non-negative distances.
* Python object identity of entities is modelled by a numeric id `eid`;
  `list.remove` / `in` on entity lists compare ids, as two distinct ursina
  entities are never equal.
* Exceptions the source catches are modelled by the value the handler leaves
  behind; an exception the source does not catch leaves the state as it was
  before the failing statement (the caller's `input` loop swallows it).
* Library helpers not part of the repository (ursina's `get_changes`,
  Python's `repr`/`eval`, the `csv` module) are modelled from the spec's
  description of their use, at the granularity the source relies on.
-/

namespace LevelEditorProof

/-- Exact 3-component vector (Python floats modelled as rationals). -/
structure Vec3Q where
  x : ℚ
  y : ℚ
  z : ℚ
deriving DecidableEq, Repr

/-- Squared Euclidean distance between two vectors; used to embed the
source's `distance(a, b) > 0.0001` test exactly. -/
def Vec3Q.distSq (a b : Vec3Q) : ℚ :=
  (a.x - b.x) ^ 2 + (a.y - b.y) ^ 2 + (a.z - b.z) ^ 2

/-- A world transform: the `(position, rotation, scale)` triple that ursina's
`world_transform` property returns and the gizmos snapshot and compare. -/
structure WorldTransform where
  position : Vec3Q
  rotation : Vec3Q
  scale : Vec3Q
deriving DecidableEq, Repr

/-- Attribute values stored on entities and in undo records / scene files.
Numbers are embedded as integers and vectors as integer triples; `vnone`
is Python's `None`. -/
inductive Val where
  | vint (n : Int)
  | vbool (b : Bool)
  | vnone
  | vstr (s : String)
  | vvec3 (x y z : Int)
  | vtransform (t : WorldTransform)
  | vsceneParent
deriving DecidableEq, Repr

/-- Python truthiness of a value (`if value:`). -/
def Val.truthy : Val → Bool
  | .vint n => n ≠ 0
  | .vbool b => b
  | .vnone => false
  | .vstr s => s ≠ ""
  | .vvec3 _ _ _ => true
  | .vtransform _ => true
  | .vsceneParent => true

/-- An attribute dictionary: one value per attribute name. -/
abbrev AttrMap := List (String × Val)

/-- `getattr`: the value bound to `k`, if any. -/
def getAttr (m : AttrMap) (k : String) : Option Val :=
  match m with
  | [] => none
  | (k', v) :: t => if k' = k then some v else getAttr t k

/-- `setattr`: rebind `k` to `v`, keeping the binding's position, or append
a new binding. -/
def setAttr (m : AttrMap) (k : String) (v : Val) : AttrMap :=
  match m with
  | [] => [(k, v)]
  | (k', v') :: t => if k' = k then (k, v) :: t else (k', v') :: setAttr t k v

/-- A scene entity: `eid` models Python object identity, `typeName` the
class discriminator, `is_gizmo` the `is_gizmo` marker that `save` skips,
and `attrs` every other attribute (`parent`, `original_parent`,
`selectable`, `shader`, `world_transform`, `_original_world_transform`,
`collider_type`, ...). -/
structure Ent where
  eid : Nat
  typeName : String
  isGizmo : Bool
  attrs : AttrMap
deriving DecidableEq, Repr

/-- Read an attribute of an entity. -/
def Ent.attr (e : Ent) (k : String) : Option Val :=
  getAttr e.attrs k

/-- Write an attribute of an entity. -/
def Ent.setattr (e : Ent) (k : String) (v : Val) : Ent :=
  { e with attrs := setAttr e.attrs k v }

/-! Python list primitives used by the source. -/
/-- Python `list.insert(i, x)` for a non-negative index: positions past the
end append (Python clamps, unlike `List.insertIdx`). -/
def pyInsert (l : List α) (i : Nat) (x : α) : List α :=
  l.take i ++ x :: l.drop i

/-- Python `list[i]` for a possibly negative index: negative indices count
from the end; out-of-range access has no value (an `IndexError`). -/
def pyGet (l : List α) (i : Int) : Option α :=
  if 0 ≤ i then l[i.toNat]?
  else
    let j : Int := (l.length : Int) + i
    if 0 ≤ j then l[j.toNat]? else none

/-- Python `list[:k]` for a possibly negative bound. -/
def pySliceTo (l : List α) (k : Int) : List α :=
  if 0 ≤ k then l.take k.toNat
  else l.take ((l.length : Int) + k).toNat

/-! The undo engine (`class Undo`, `src/level_editor.py` lines 645-773) and
entity deletion (`Deleter.delete_selected`, lines 2613-2647). -/
/-- An entry of `undo_data`.  `attrChange` is the generic list of
`(index, attribute, old, new)` rows handled by the `else` branches;
`deleteEntities` / `restoreEntities` are the tagged tuples
`('delete entities', ids, recipes)` / `('restore entities', ids, recipes)`.
A recipe (`repr(e)`) is modelled as the entity value it captures. -/
inductive UndoRecord where
  | attrChange (changes : List (Nat × String × Val × Val))
  | deleteEntities (ids : List Nat) (recipes : List Ent)
  | restoreEntities (ids : List Nat) (recipes : List Ent)
deriving DecidableEq, Repr

/-- The scene-editing state the cited operations touch: the registry
(`LEVEL_EDITOR.entities`), the selection (a list of entity references,
modelled by their ids), and the per-scene undo log. -/
structure EditorState where
  entities : List Ent
  selection : List Nat
  undo_data : List UndoRecord
  undo_index : Int
deriving DecidableEq, Repr

/-- Evaluate a lookup for every element, failing (raising) as soon as one
lookup fails — the semantics of the list comprehensions
`[LEVEL_EDITOR.entities[id] for id in ...]` and
`[LEVEL_EDITOR.entities.index(e) for e in ...]`. -/
def mapOpt (f : α → Option β) : List α → Option (List β)
  | [] => some []
  | a :: t =>
      match f a with
      | none => none
      | some b => (mapOpt f t).map (b :: ·)

/-- Find a selected entity in the registry by identity. -/
def findEnt (es : List Ent) (id : Nat) : Option Ent :=
  match es with
  | [] => none
  | e :: t => if e.eid = id then some e else findEnt t id

/-- `LEVEL_EDITOR.entities.index(e)`: position of the first entity with the
given identity, or a `ValueError` when absent. -/
def entIdx (es : List Ent) (id : Nat) : Option Nat :=
  match es with
  | [] => none
  | e :: t => if e.eid = id then some 0 else (entIdx t id).map (· + 1)

/-- `eval(recipe)` followed by the three forced assignments the undo engine
performs on every reconstructed entity (lines 687-690 and 738-741):
`selectable = True`, `original_parent = parent`,
`shader = lit_with_shadows_shader`. -/
def restoreClone (r : Ent) : Ent :=
  let c := r.setattr "selectable" (Val.vbool true)
  let c := c.setattr "original_parent"
    (match c.attr "parent" with | some v => v | none => Val.vnone)
  c.setattr "shader" (Val.vstr "lit_with_shadows_shader")

/-- Insert reconstructed clones at the recorded indices: the loop of the
`'restore entities'` undo branch and of the `'delete entities'` redo branch
(`LEVEL_EDITOR.entities.insert(id, clone)` clamps like Python `insert`). -/
def insertClones (es : List Ent) (pairs : List (Nat × Ent)) : List Ent :=
  pairs.foldl (fun acc p => pyInsert acc p.1 (restoreClone p.2)) es

/-- Remove the entities found at `ids` from selection and registry: the body
of the `'delete entities'` undo branch and the `'restore entities'` redo
branch.  The id lookups happen first; if one is out of range the whole
branch raises inside the outer `try` and nothing is removed. -/
def removeTargets (es : List Ent) (sel : List Nat) (ids : List Nat) :
    List Ent × List Nat :=
  match mapOpt (fun i => es[i]?) ids with
  | none => (es, sel)
  | some targets =>
      let sel' := targets.foldl (fun acc e => acc.erase e.eid) sel
      let es' := targets.foldl
        (fun acc e => List.eraseP (fun x => x.eid == e.eid) acc) es
      (es', sel')

/-- Apply one `(index, attr, old, new)` batch; `useOld` selects the undo
direction.  A failing row (index out of range) is caught per-row and
skipped, the rest of the batch still applies. -/
def applyAttrChanges (es : List Ent)
    (changes : List (Nat × String × Val × Val)) (useOld : Bool) : List Ent :=
  changes.foldl
    (fun acc c =>
      match acc[c.1]? with
      | none => acc
      | some e => acc.set c.1 (e.setattr c.2.1 (if useOld then c.2.2.1 else c.2.2.2)))
    es

namespace Undo

/-- `Undo.record_undo` (lines 658-671): truncate the log to the cursor,
append, advance the cursor. -/
def record_undo (s : EditorState) (data : UndoRecord) : EditorState :=
  let d := pySliceTo s.undo_data (s.undo_index + 1)
  { s with undo_data := d ++ [data], undo_index := s.undo_index + 1 }

/-- `Undo.undo` (lines 673-722).  The entry is read before the `try` block,
so an out-of-range cursor raises and leaves the state untouched; otherwise
the cursor is decremented whatever the entry application did. -/
def undo (s : EditorState) : EditorState :=
  if s.undo_index < 0 then s
  else
    match pyGet s.undo_data s.undo_index with
    | none => s
    | some r =>
      let s' :=
        match r with
        | .restoreEntities ids recipes =>
            { s with entities := insertClones s.entities (ids.zip recipes) }
        | .deleteEntities ids _ =>
            let p := removeTargets s.entities s.selection ids
            { s with entities := p.1, selection := p.2 }
        | .attrChange changes =>
            { s with entities := applyAttrChanges s.entities changes true }
      { s' with undo_index := s.undo_index - 1 }

/-- `Undo.redo` (lines 724-773), symmetric to `undo`: `'delete entities'`
re-inserts clones, `'restore entities'` removes them again, attribute rows
are re-applied with their new values; then the cursor is incremented. -/
def redo (s : EditorState) : EditorState :=
  if (s.undo_data.length : Int) < s.undo_index + 2 then s
  else
    match pyGet s.undo_data (s.undo_index + 1) with
    | none => s
    | some r =>
      let s' :=
        match r with
        | .deleteEntities ids recipes =>
            { s with entities := insertClones s.entities (ids.zip recipes) }
        | .restoreEntities ids _ =>
            let p := removeTargets s.entities s.selection ids
            { s with entities := p.1, selection := p.2 }
        | .attrChange changes =>
            { s with entities := applyAttrChanges s.entities changes false }
      { s' with undo_index := s.undo_index + 1 }

end Undo

namespace Deleter

/-- `Deleter.delete_selected` (lines 2613-2647): record a
`('restore entities', indices, recipes)` entry, remove every selected
entity from the registry, clear the selection.  The whole body sits in a
`try`; if a selected entity is not in the registry, `.index` raises first
and the state is unchanged. -/
def delete_selected (s : EditorState) : EditorState :=
  match mapOpt (fun id => entIdx s.entities id) s.selection with
  | none => s
  | some ids =>
      let recipes := s.selection.filterMap (fun id => findEnt s.entities id)
      let s1 := Undo.record_undo s (UndoRecord.restoreEntities ids recipes)
      let es := s.selection.foldl
        (fun acc id => List.eraseP (fun x => x.eid == id) acc) s1.entities
      { s1 with entities := es, selection := [] }

end Deleter

/-! Manipulator release logic (`GizmoArrow.drop` lines 856-896,
`RotationGizmo.drop` lines 1136-1156, `ScaleGizmo.drop` lines 1245-1262). -/
/-- `e.world_parent = e.original_parent`: a pure reparent.  Ursina's
`world_parent` setter preserves the world transform, so in this embedding
only the parent attribute changes.  (Every scene entity is given an
`original_parent` on load or on drag engage; a missing one is modelled as
`None`.) -/
def restoreParent (e : Ent) : Ent :=
  e.setattr "parent"
    (match e.attr "original_parent" with | some v => v | none => Val.vnone)

/-- The entity's current `world_transform`, when it is transform-valued. -/
def getTransform (e : Ent) : Option WorldTransform :=
  match e.attr "world_transform" with
  | some (.vtransform t) => some t
  | _ => none

/-- The `_original_world_transform` snapshot taken on drag engage. -/
def getSnapshot (e : Ent) : Option WorldTransform :=
  match e.attr "_original_world_transform" with
  | some (.vtransform t) => some t
  | _ => none

/-- The squared form of the source's epsilon `0.0001`. -/
def dragEpsilonSq : ℚ := (1 / 10000) ^ 2

/-- `any(distance(world_transform[i], original[i]) > .0001 for i in range(3))`,
embedded via squared distances. -/
def movedBeyondEpsilon (t t0 : WorldTransform) : Bool :=
  decide (dragEpsilonSq < Vec3Q.distSq t.position t0.position) ||
  decide (dragEpsilonSq < Vec3Q.distSq t.rotation t0.rotation) ||
  decide (dragEpsilonSq < Vec3Q.distSq t.scale t0.scale)

/-- The batched `[index, 'world_transform', snapshot, current]` rows built by
all three drop handlers, one per selected entity.  `GizmoArrow.drop` skips a
selected entity the registry lost (`except ValueError`); the other two would
raise there, so their theorems assume the selection is in the registry. -/
def transformChanges (es : List Ent) (sel : List Nat) :
    List (Nat × String × Val × Val) :=
  sel.filterMap (fun id =>
    match entIdx es id, findEnt es id with
    | some i, some e =>
        match getSnapshot e, getTransform e with
        | some t0, some t =>
            some (i, "world_transform", Val.vtransform t0, Val.vtransform t)
        | _, _ => none
    | _, _ => none)

/-- Restore the original parent of every selected entity (the first loop of
each drop handler). -/
def restoreParents (es : List Ent) (sel : List Nat) : List Ent :=
  es.map (fun e => if sel.contains e.eid then restoreParent e else e)

/-- The epsilon test `GizmoArrow.drop` performs — on the first selected
entity (`first = LEVEL_EDITOR.selection[0]`) only; a failing comparison
(for instance a missing snapshot) is caught and counts as unchanged. -/
def firstSelectedMoved (es : List Ent) (sel : List Nat) : Bool :=
  match sel with
  | [] => false
  | firstId :: _ =>
      match findEnt es firstId with
      | some first =>
          match getTransform first, getSnapshot first with
          | some t, some t0 => movedBeyondEpsilon t t0
          | _, _ => false
      | none => false

namespace GizmoArrow

/-- `GizmoArrow.drop` (lines 856-896).  `flagRecordUndo` is
`self.record_undo` (cleared by quick tools around synthesized drags). -/
def drop (s : EditorState) (flagRecordUndo : Bool) : EditorState :=
  let es := restoreParents s.entities s.selection
  match s.selection with
  | [] => { s with entities := es }
  | _ :: _ =>
      let s1 := { s with entities := es }
      if flagRecordUndo && firstSelectedMoved es s.selection then
        Undo.record_undo s1 (UndoRecord.attrChange (transformChanges es s.selection))
      else s1

end GizmoArrow

namespace RotationGizmo

/-- `RotationGizmo.drop` (lines 1136-1156): restore parents and always
record one batched transform record — no epsilon test, no empty-selection
guard. -/
def drop (s : EditorState) : EditorState :=
  let es := restoreParents s.entities s.selection
  Undo.record_undo { s with entities := es }
    (UndoRecord.attrChange (transformChanges es s.selection))

end RotationGizmo

namespace ScaleGizmo

/-- `ScaleGizmo.drop` (lines 1245-1262): identical release logic to the
rotation gizmo — restore parents, then record unconditionally. -/
def drop (s : EditorState) : EditorState :=
  let es := restoreParents s.entities s.selection
  Undo.record_undo { s with entities := es }
    (UndoRecord.attrChange (transformChanges es s.selection))

end ScaleGizmo

/-! Scene persistence (`LevelEditorScene.save` lines 484-539,
`LevelEditorScene.load` lines 541-618, `ErrorEntity` lines 427-454).
The textual cells of the scene file are modelled as strings; Python's
`str()` of a saved value and `eval()` of a read cell are modelled by an
executable printer and literal parser over the value grammar the editor
persists (integers, booleans, `None`, strings, `Vec3`). -/
/-- Decimal digit to character. -/
def digitCh : Nat → Char
  | 0 => '0' | 1 => '1' | 2 => '2' | 3 => '3' | 4 => '4'
  | 5 => '5' | 6 => '6' | 7 => '7' | 8 => '8' | _ => '9'

/-- Character to decimal digit; `10` marks a non-digit. -/
def chDigit (c : Char) : Nat :=
  if c = '0' then 0 else if c = '1' then 1 else if c = '2' then 2
  else if c = '3' then 3 else if c = '4' then 4 else if c = '5' then 5
  else if c = '6' then 6 else if c = '7' then 7 else if c = '8' then 8
  else if c = '9' then 9 else 10

def isDigitCh (c : Char) : Bool := chDigit c < 10

/-- `str(n)` for a natural number. -/
def printNatChars (n : Nat) : List Char :=
  if n = 0 then ['0'] else ((Nat.digits 10 n).map digitCh).reverse

/-- Read a all-digit character list as a natural number. -/
def digitsToNat (cs : List Char) : Nat :=
  Nat.ofDigits 10 ((cs.map chDigit).reverse)

def parseNatChars (cs : List Char) : Option Nat :=
  if cs ≠ [] ∧ cs.all isDigitCh then some (digitsToNat cs) else none

/-- `str(i)` for an integer. -/
def printIntChars (i : Int) : List Char :=
  if i < 0 then '-' :: printNatChars (-i).toNat else printNatChars i.toNat

def parseIntChars (cs : List Char) : Option Int :=
  match cs with
  | [] => none
  | c :: rest =>
      if c = '-' then (parseNatChars rest).map (fun n => -(n : Int))
      else (parseNatChars cs).map (fun n => (n : Int))

/-- Split at the first occurrence of `c`, dropping it. -/
def splitAtCh (c : Char) : List Char → Option (List Char × List Char)
  | [] => none
  | x :: xs =>
      if x = c then some ([], xs)
      else (splitAtCh c xs).map (fun p => (x :: p.1, p.2))

/-- Parse `Vec3(x, y, z)` with integer components. -/
def parseVec3Chars (cs : List Char) : Option Val :=
  match cs with
  | c1 :: c2 :: c3 :: c4 :: c5 :: rest =>
      if c1 = 'V' ∧ c2 = 'e' ∧ c3 = 'c' ∧ c4 = '3' ∧ c5 = '(' then
        match splitAtCh ',' rest with
        | none => none
        | some (a, rest1) =>
            match rest1 with
            | [] => none
            | c6 :: rest2 =>
                if c6 = ' ' then
                  match splitAtCh ',' rest2 with
                  | none => none
                  | some (b, rest3) =>
                      match rest3 with
                      | [] => none
                      | c7 :: rest4 =>
                          if c7 = ' ' then
                            match splitAtCh ')' rest4 with
                            | none => none
                            | some (cz, tail) =>
                                match tail with
                                | [] =>
                                    match parseIntChars a, parseIntChars b,
                                      parseIntChars cz with
                                    | some x, some y, some z =>
                                        some (.vvec3 x y z)
                                    | _, _, _ => none
                                | _ => none
                          else none
                else none
      else none
  | _ => none

/-- Modelled from the spec: the literal-expression interpretation `eval`
applies to a cell — booleans, `None`, quoted strings, integers and `Vec3`
literals; anything else fails. -/
def parseLitChars (cs : List Char) : Option Val :=
  if cs = "True".data then some (.vbool true)
  else if cs = "False".data then some (.vbool false)
  else if cs = "None".data then some .vnone
  else
    match cs with
    | [] => none
    | c :: rest =>
        if c = '\'' then
          match splitAtCh '\'' rest with
          | none => none
          | some (content, tail) =>
              match tail with
              | [] => some (.vstr (String.mk content))
              | _ => none
        else
          match parseIntChars cs with
          | some n => some (.vint n)
          | none => parseVec3Chars cs

/-- The per-field interpretation of `load` (lines 576-582): `eval` the cell,
and on any failure keep the raw text. -/
def pyEvalCell (s : String) : Val :=
  match parseLitChars s.data with
  | some v => v
  | none => .vstr s

/-- Modelled from the spec: Python's `str()` of a persisted value, as the
`csv` writer renders it into a cell. -/
def pyStrVal : Val → String
  | .vint n => String.mk (printIntChars n)
  | .vbool true => "True"
  | .vbool false => "False"
  | .vnone => "None"
  | .vstr s => s
  | .vvec3 x y z =>
      String.mk ('V' :: 'e' :: 'c' :: '3' :: '(' :: (printIntChars x ++
        ',' :: ' ' :: (printIntChars y ++ ',' :: ' ' :: (printIntChars z ++ [')']))))
  | .vtransform _ => "<world transform>"
  | .vsceneParent => "<scene parent entity>"

/-- A value whose textual cell reads back as itself: integers, booleans and
vectors always do; a string only when it is non-empty and not itself
parseable as a literal (it is written without quotes). -/
def serializableVal : Val → Bool
  | .vint _ => true
  | .vbool _ => true
  | .vvec3 _ _ _ => true
  | .vstr s => s ≠ "" && (parseLitChars s.data).isNone
  | _ => false

/-- A runtime entity type, as `load` resolves the class-name discriminator:
class name, attribute defaults, and `ctorFails`, which models
`target_class(**kwargs)` raising. -/
structure EntityType where
  name : String
  defaults : AttrMap
  ctorFails : AttrMap → Bool

/-- One row of the scene file: the class discriminator column plus one cell
of raw text per named field (the `csv` header is the union of the keys; a
missing key reads back as the empty cell, which `load` drops). -/
structure Row where
  className : String
  cells : List (String × String)
deriving DecidableEq, Repr

/-- Modelled from the spec: ursina's `e.get_changes(e.__class__)` — the
attributes whose current value differs from the type's default. -/
def get_changes (defaults : AttrMap) (e : Ent) : AttrMap :=
  e.attrs.filter (fun kv => decide (getAttr defaults kv.1 ≠ some kv.2))

/-- The `None -> False` flattening `save` applies to every changed value
(lines 510-512). -/
def noneToFalse (v : Val) : Val :=
  if v = Val.vnone then Val.vbool false else v

/-- The changed-attribute dictionary one saved row carries: the changes
with `None` flattened to `False`, and `collider_type` always rewritten in
quoted form when the entity has one (lines 508-518). -/
def savedChanges (defaults : AttrMap) (e : Ent) : AttrMap :=
  let changes := (get_changes defaults e).map
    (fun kv => (kv.1, noneToFalse kv.2))
  match e.attr "collider_type" with
  | some ct =>
      setAttr changes "collider_type" (Val.vstr ("'" ++ pyStrVal ct ++ "'"))
  | none => changes

namespace LevelEditorScene

/-- One saved row (`LevelEditorScene.save`, lines 504-526): the class-name
discriminator plus the changed attributes rendered to text cells. -/
def saveRow (defaults : AttrMap) (e : Ent) : Row :=
  { className := e.typeName,
    cells := (savedChanges defaults e).map (fun kv => (kv.1, pyStrVal kv.2)) }

/-- `LevelEditorScene.save` (lines 484-539): one row per non-gizmo entity of
the registry, in registry order.  `defaultsOf` gives each entity's own
class defaults (`e.__class__`). -/
def save (defaultsOf : String → AttrMap) (es : List Ent) : List Row :=
  (es.filter (fun e => !e.isGizmo)).map (fun e => saveRow (defaultsOf e.typeName) e)

end LevelEditorScene

/-- The `ErrorEntity` class defaults (lines 427-454): a red wireframe cube. -/
def errorEntityDefaults : AttrMap :=
  [("model", .vstr "wireframe_cube"), ("color", .vstr "red")]

/-- Modelled from the spec: constructing a resolved class applies the kwargs
over the class defaults. -/
def construct (name : String) (defaults : AttrMap) (kwargs : AttrMap) : Ent :=
  { eid := 0, typeName := name, isGizmo := false,
    attrs := kwargs.foldl (fun acc kv => setAttr acc kv.1 kv.2) defaults }

/-- A bare `ErrorEntity()`, substituted when construction raises. -/
def errorEntity : Ent := construct "ErrorEntity" errorEntityDefaults []

namespace LevelEditorScene

/-- One row of `LevelEditorScene.load` (lines 571-597): keep the non-empty
cells, interpret each as a literal keeping raw text on failure, force
`parent` to the scene root, then resolve the class discriminator — an
unresolved name falls back to the `ErrorEntity` class (still applying the
kwargs), a raising constructor to a bare `ErrorEntity()`. -/
def rowKwargs (row : Row) : AttrMap :=
  let kwargs := (row.cells.filter (fun kv => kv.2 ≠ "" && kv.1 ≠ "parent")).map
    (fun kv => (kv.1, pyEvalCell kv.2))
  setAttr kwargs "parent" Val.vsceneParent

def loadRow (types : List EntityType) (row : Row) : Ent :=
  match types.find? (fun ty => ty.name == row.className) with
  | none => construct "ErrorEntity" errorEntityDefaults (rowKwargs row)
  | some ty =>
      if ty.ctorFails (rowKwargs row) then errorEntity
      else construct ty.name ty.defaults (rowKwargs row)

/-- The post-load adjustments (lines 599-611): default shader when unset,
`selectable = True`, `original_parent = parent`, a `collider_type` slot, and
a box collider for cube models. -/
def postLoadFix (e : Ent) : Ent :=
  let e :=
    if (match e.attr "shader" with | some v => v.truthy | none => false) then e
    else e.setattr "shader" (.vstr "lit_with_shadows_shader")
  let e := e.setattr "selectable" (.vbool true)
  let e := e.setattr "original_parent"
    (match e.attr "parent" with | some v => v | none => Val.vnone)
  let e :=
    if (e.attr "collider_type").isSome then e
    else e.setattr "collider_type" Val.vnone
  if e.attr "model" = some (.vstr "cube") then
    (e.setattr "collider" (.vstr "box")).setattr "collision" (.vbool false)
  else e

end LevelEditorScene

/-- The per-cell persistent state of `LevelEditorScene` (lines 457-482):
whether a file path is known, whether a live scene root exists, the entity
and selection lists, and the cell's own undo log. -/
structure SceneCell where
  path : Bool
  scene_parent : Bool
  entities : List Ent
  selection : List Nat
  undo_data : List UndoRecord
  undo_index : Int
deriving DecidableEq, Repr

namespace LevelEditorScene

/-- `LevelEditorScene.load` (lines 541-618) at cell level: refuse when no
path is set or a scene root already exists; otherwise append one entity per
row and run the post-load fixes over the entity list.  The undo log is not
touched. -/
def load (types : List EntityType) (rows : List Row) (s : SceneCell) : SceneCell :=
  if !s.path then s
  else if s.scene_parent then s
  else { s with scene_parent := true,
                entities := (s.entities ++ rows.map (loadRow types)).map postLoadFix }

/-- `LevelEditorScene.unload` (lines 620-642): destroy the scene content and
clear the entity and selection lists; the undo log is kept. -/
def unload (s : SceneCell) : SceneCell :=
  { s with entities := [], selection := [], scene_parent := false }

end LevelEditorScene

namespace LevelMenu

/-- ursina's `clamp(value, floor, ceiling)`. -/
def clampI (v lo hi : Int) : Int := min (max v lo) hi

/-- The shift+alt WASD branch of `LevelMenu.input` (lines 2973-2988): step
the current scene coordinates and clamp each component into `0..8`. -/
def adjacent_scene_coords (coords : Int × Int) (key : Char) : Int × Int :=
  let c := coords
  let c := if key = 'd' then (c.1 + 1, c.2) else c
  let c := if key = 'a' then (c.1 - 1, c.2) else c
  let c := if key = 'w' then (c.1, c.2 + 1) else c
  let c := if key = 's' then (c.1, c.2 - 1) else c
  (clampI c.1 0 8, clampI c.2 0 8)

/-- `LEVEL_EDITOR.scenes` is built as an 8 by 8 list of lists (line 25), so
`goto_scene`'s accesses `scenes[x][y]` (lines 2990-2999) succeed exactly for
these indices. -/
def sceneGridIndexOk (x y : Int) : Bool :=
  0 ≤ x && x < 8 && 0 ≤ y && y < 8

end LevelMenu

/-! Log well-formedness and its preservation. -/
/-- The cursor sits between `-1` ("nothing applied") and the last entry.
The initial log (`[]`, `-1`) satisfies this and every operation preserves
it. -/
def wfLog (s : EditorState) : Prop :=
  -1 ≤ s.undo_index ∧ s.undo_index < s.undo_data.length

/-- A cell with one pending undo record, about to be loaded. -/
def pendingUndoCell : SceneCell :=
  { path := true, scene_parent := false, entities := [], selection := [],
    undo_data := [UndoRecord.attrChange []], undo_index := 0 }

/-- An entity sitting exactly on its engage-time snapshot. -/
def idleTransform : WorldTransform :=
  { position := ⟨0, 0, 0⟩, rotation := ⟨0, 0, 0⟩, scale := ⟨1, 1, 1⟩ }

def idleEnt : Ent :=
  { eid := 5, typeName := "Entity", isGizmo := false,
    attrs := [("parent", Val.vsceneParent),
              ("original_parent", Val.vsceneParent),
              ("world_transform", Val.vtransform idleTransform),
              ("_original_world_transform", Val.vtransform idleTransform)] }

def idleState : EditorState :=
  { entities := [idleEnt], selection := [5], undo_data := [], undo_index := -1 }

/-! Claim C8: the selection is a subset of the registry. -/
/-- The invariant: every selected reference names a registry entity. -/
def selectionSubset (s : EditorState) : Prop :=
  ∀ id ∈ s.selection, id ∈ s.entities.map Ent.eid

/-! Claim C3: undo followed immediately by redo. -/
/-- One row of an attribute batch, as `applyAttrChanges` folds it. -/
def stepAttrChange (u : Bool) (es : List Ent)
    (c : Nat × String × Val × Val) : List Ent :=
  match es[c.1]? with
  | none => es
  | some e => es.set c.1 (e.setattr c.2.1 (if u then c.2.2.1 else c.2.2.2))

/-- The `(index, attribute)` location a row touches. -/
def chLoc (c : Nat × String × Val × Val) : Nat × String := (c.1, c.2.1)

/-- The entity at index `i` exists and carries attribute `a`. -/
def attrPresent (es : List Ent) (i : Nat) (a : String) : Prop :=
  ∃ e, es[i]? = some e ∧ (getAttr e.attrs a).isSome

/-- An entity that is not in the normal form the undo engine forces on
reconstructed clones. -/
def matcapEnt : Ent :=
  { eid := 9, typeName := "Entity", isGizmo := false,
    attrs := [("selectable", Val.vbool false), ("parent", Val.vsceneParent),
              ("shader", Val.vstr "matcap")] }

/-- A state whose cursor sits on a `'delete entities'` record for
`matcapEnt` (as left behind by spawning or duplicating it). -/
def deleteRecState : EditorState :=
  { entities := [matcapEnt], selection := [],
    undo_data := [UndoRecord.deleteEntities [0] [matcapEnt]],
    undo_index := 0 }

/-! Claim C2: delete-selected followed by undo. -/
/-- A registry decomposed around an ascending selection: the unselected
prefix `c0`, then each selected entity followed by its trailing chunk of
unselected entities.  Every registry with a selection listed in registry
order decomposes this way. -/
def weave (c0 : List Ent) (rest : List (Ent × List Ent)) : List Ent :=
  c0 ++ (rest.map (fun p => p.1 :: p.2)).flatten

/-- The registry positions of the selected entities of a weave whose
prefix has length `off`. -/
def weaveIds (off : Nat) : List (Ent × List Ent) → List Nat
  | [] => []
  | p :: rest => off :: weaveIds (off + 1 + p.2.length) rest

/-- An unornamented entity for concrete scenarios. -/
def mkPlainEnt (i : Nat) : Ent :=
  { eid := i, typeName := "Entity", isGizmo := false,
    attrs := [("parent", Val.vsceneParent)] }

/-- Registry `[e1, e2, e3, e4]` with `e2` selected before `e1` (the user
picked them in reverse registry order). -/
def reversedSelState : EditorState :=
  { entities := [mkPlainEnt 1, mkPlainEnt 2, mkPlainEnt 3, mkPlainEnt 4],
    selection := [2, 1], undo_data := [], undo_index := -1 }

/-! Claim C6: the printed form of a serializable value reads back as
itself. -/
/-- A character the integer printer can emit. -/
def intishCh (c : Char) : Bool := isDigitCh c || c = '-'

/-- The value Python `getattr` observes on an entity: instance attribute
first, class default otherwise. -/
def attrVal (D : AttrMap) (e : Ent) (k : String) : Option Val :=
  match getAttr e.attrs k with
  | some v => some v
  | none => getAttr D k

/-- The non-default attribute value at a key: `some v` exactly when the
observed value differs from the class default. -/
def changedAt (D : AttrMap) (e : Ent) (k : String) : Option Val :=
  match attrVal D e k with
  | some v => if getAttr D k = some v then none else some v
  | none => none

/-- The serialization-safety conditions under which one entity's
non-default attribute set survives the save/load round trip: well-formed
attribute keys; every changed value serializable (no `None` — `save`
flattens it to `False` — and only inert strings); a quote-free string
`collider_type`; and the post-load normalisation already in force (truthy
shader, `selectable` true, scene-root parenting, box collider on cube
models). -/
def roundtripReady (D : AttrMap) (e : Ent) : Bool :=
  decide (e.attrs.map Prod.fst).Nodup &&
  e.attrs.all (fun kv => (getAttr D kv.1 == some kv.2) || serializableVal kv.2) &&
  (match getAttr e.attrs "collider_type" with
   | some (Val.vstr str) => str.data.all (fun c => !(c == '\''))
   | _ => false) &&
  (match attrVal D e "shader" with
   | some v => v.truthy
   | none => false) &&
  (attrVal D e "selectable" == some (Val.vbool true)) &&
  (attrVal D e "parent" == some Val.vsceneParent) &&
  (getAttr D "parent" == some Val.vsceneParent) &&
  (attrVal D e "original_parent" == some Val.vsceneParent) &&
  (getAttr D "original_parent" == some Val.vsceneParent) &&
  (!(attrVal D e "model" == some (Val.vstr "cube")) ||
    ((attrVal D e "collider" == some (Val.vstr "box")) &&
     (attrVal D e "collision" == some (Val.vbool false))))

/-- The defaults of the class used by the save/load round-trip scenario. -/
def whiteCubeDefaults : AttrMap :=
  [("parent", Val.vsceneParent), ("original_parent", Val.vsceneParent),
   ("shader", Val.vstr "lit_with_shadows_shader"),
   ("selectable", Val.vbool true), ("collider_type", Val.vstr "box"),
   ("position", Val.vvec3 0 0 0)]

/-- A well-behaved entity: one moved position, everything else default. -/
def whiteCubeEnt : Ent :=
  { eid := 1, typeName := "WhiteCube", isGizmo := false,
    attrs := [("position", Val.vvec3 1 2 3), ("collider_type", Val.vstr "box")] }

def whiteCubeType : EntityType :=
  { name := "WhiteCube", defaults := whiteCubeDefaults,
    ctorFails := fun _ => false }

def roundTypes : List EntityType := [whiteCubeType]

def roundDefaultsOf : String → AttrMap := fun _ => whiteCubeDefaults

def roundCell : SceneCell :=
  { path := true, scene_parent := true, entities := [whiteCubeEnt],
    selection := [], undo_data := [], undo_index := -1 }

/-- An entity whose only non-default attribute is `None`: `save` flattens it
to `False`, so the reload does not reproduce the non-default set. -/
def noneAttrEnt : Ent :=
  { eid := 1, typeName := "Thing", isGizmo := false,
    attrs := [("texture", Val.vnone)] }

def noneAttrDefaults : AttrMap := [("texture", Val.vstr "brick")]

def noneAttrTypes : List EntityType :=
  [{ name := "Thing", defaults := noneAttrDefaults,
     ctorFails := fun _ => false }]

def noneAttrDefaultsOf : String → AttrMap := fun _ => noneAttrDefaults

def noneAttrCell : SceneCell :=
  { path := true, scene_parent := true, entities := [noneAttrEnt],
    selection := [], undo_data := [], undo_index := -1 }

/-- A state whose cursor sits on an attribute record whose new values are
current. -/
def attrRecState : EditorState :=
  { entities := [{ eid := 3, typeName := "Entity", isGizmo := false,
                   attrs := [("x", Val.vint 2)] }],
    selection := [3],
    undo_data := [UndoRecord.attrChange [(0, "x", Val.vint 1, Val.vint 2)]],
    undo_index := 0 }

theorem getAttr_setAttr_self (m : AttrMap) (k : String) (v : Val) :
    getAttr (setAttr m k v) k = some v := by
  induction m with
  | nil => simp [setAttr, getAttr]
  | cons h t ih =>
    by_cases hk : h.1 = k <;> simp [setAttr, getAttr, hk, ih]

theorem getAttr_setAttr_ne (m : AttrMap) (k k' : String) (v : Val)
    (h : k ≠ k') : getAttr (setAttr m k v) k' = getAttr m k' := by
  induction m with
  | nil => simp [setAttr, getAttr, h]
  | cons hd t ih =>
    by_cases hk : hd.1 = k
    · simp [setAttr, getAttr, hk, h]
    · simp [setAttr, getAttr, hk, ih]

theorem setAttr_same (m : AttrMap) (k : String) (v : Val)
    (h : getAttr m k = some v) : setAttr m k v = m := by
  induction m with
  | nil => simp [getAttr] at h
  | cons hd t ih =>
    obtain ⟨k0, v0⟩ := hd
    by_cases hk : k0 = k
    · simp [getAttr, hk] at h
      simp [setAttr, hk, h]
    · simp [getAttr, hk] at h
      simp [setAttr, hk, ih h]

/-- Rebinding two distinct attributes commutes, provided the first one is
already bound (fresh-fresh pairs would append in opposite orders). -/
theorem setAttr_comm (m : AttrMap) (k₁ k₂ : String) (v₁ v₂ : Val)
    (h : k₁ ≠ k₂) (hmem : (getAttr m k₁).isSome) :
    setAttr (setAttr m k₁ v₁) k₂ v₂ = setAttr (setAttr m k₂ v₂) k₁ v₁ := by
  induction m with
  | nil => simp [getAttr] at hmem
  | cons hd t ih =>
    obtain ⟨k0, v0⟩ := hd
    by_cases h1 : k0 = k₁
    · subst h1
      simp [setAttr, h, fun hh : k₂ = k0 => h (hh ▸ rfl)]
    · by_cases h2 : k0 = k₂
      · subst h2
        simp [setAttr, h1, fun hh : k₁ = k0 => h1 (hh ▸ rfl)]
      · simp [getAttr, h1] at hmem
        simp [setAttr, h1, h2, ih hmem]

theorem pyInsert_append (a b : List α) (x : α) :
    pyInsert (a ++ b) a.length x = a ++ x :: b := by
  simp [pyInsert, List.take_append, List.drop_append]

theorem pySliceTo_nonneg (l : List α) (k : Int) (h : 0 ≤ k) :
    pySliceTo l k = l.take k.toNat := by
  simp [pySliceTo, h]

theorem wfLog_record_undo (s : EditorState) (d : UndoRecord) (h : wfLog s) :
    wfLog (Undo.record_undo s d) := by
  obtain ⟨h1, h2⟩ := h
  have hnn : (0 : Int) ≤ s.undo_index + 1 := by omega
  constructor
  · simp [Undo.record_undo]; omega
  · simp [Undo.record_undo, pySliceTo_nonneg _ _ hnn]
    have : (s.undo_index + 1).toNat ≤ s.undo_data.length := by omega
    omega

theorem length_applyAttrChanges (es : List Ent)
    (cs : List (Nat × String × Val × Val)) (u : Bool) :
    (applyAttrChanges es cs u).length = es.length := by
  induction cs generalizing es with
  | nil => rfl
  | cons c t ih =>
    simp only [applyAttrChanges, List.foldl_cons] at *
    cases h : es[c.1]? <;> simp [h, ih]

theorem undo_log_cursor (s : EditorState) :
    (Undo.undo s).undo_data = s.undo_data ∧
    ((Undo.undo s).undo_index = s.undo_index ∨
      (Undo.undo s).undo_index = s.undo_index - 1) := by
  unfold Undo.undo
  split
  · exact ⟨rfl, Or.inl rfl⟩
  · cases hr : pyGet s.undo_data s.undo_index with
    | none => exact ⟨rfl, Or.inl rfl⟩
    | some r => cases r <;> exact ⟨rfl, Or.inr rfl⟩

theorem redo_log_cursor (s : EditorState) :
    (Undo.redo s).undo_data = s.undo_data ∧
    ((Undo.redo s).undo_index = s.undo_index ∨
      (Undo.redo s).undo_index = s.undo_index + 1) := by
  unfold Undo.redo
  split
  · exact ⟨rfl, Or.inl rfl⟩
  · cases hr : pyGet s.undo_data (s.undo_index + 1) with
    | none => exact ⟨rfl, Or.inl rfl⟩
    | some r => cases r <;> exact ⟨rfl, Or.inr rfl⟩

theorem wfLog_undo (s : EditorState) (h : wfLog s) : wfLog (Undo.undo s) := by
  obtain ⟨h1, h2⟩ := h
  obtain ⟨hd, hi⟩ := undo_log_cursor s
  by_cases h0 : s.undo_index < 0
  · have : Undo.undo s = s := by unfold Undo.undo; rw [if_pos h0]
    rw [this]; exact ⟨h1, h2⟩
  · constructor
    · rcases hi with hi | hi <;> rw [hi] <;> omega
    · rw [hd]; rcases hi with hi | hi <;> rw [hi] <;> omega

theorem wfLog_redo (s : EditorState) (h : wfLog s) : wfLog (Undo.redo s) := by
  obtain ⟨h1, h2⟩ := h
  obtain ⟨hd, hi⟩ := redo_log_cursor s
  by_cases hg : (s.undo_data.length : Int) < s.undo_index + 2
  · have : Undo.redo s = s := by unfold Undo.redo; rw [if_pos hg]
    rw [this]; exact ⟨h1, h2⟩
  · constructor
    · rcases hi with hi | hi <;> rw [hi] <;> omega
    · rw [hd]; rcases hi with hi | hi <;> rw [hi] <;> omega

theorem wfLog_delete_selected (s : EditorState) (h : wfLog s) :
    wfLog (Deleter.delete_selected s) := by
  unfold Deleter.delete_selected
  cases hm : mapOpt (fun id => entIdx s.entities id) s.selection with
  | none => exact h
  | some ids =>
    have := wfLog_record_undo s
      (UndoRecord.restoreEntities ids
        (s.selection.filterMap (fun id => findEnt s.entities id))) h
    simpa [wfLog, Undo.record_undo] using this

theorem pyGet_append_singleton (l : List α) (d : α) :
    pyGet (l ++ [d]) (l.length : Int) = some d := by
  simp [pyGet, List.getElem?_append_right, Int.toNat_ofNat]

theorem pyGet_append_singleton_of_eq (l : List α) (d : α) (i : Int)
    (h : i = l.length) : pyGet (l ++ [d]) i = some d := by
  rw [h]; exact pyGet_append_singleton l d

/-- C4: `Undo.record_undo` truncates the log to the cursor, appends the new
record, and advances the cursor by one; entries that had been undone but
not redone are discarded (the new length is cursor+1 entries plus the new
one) and the cursor points at the appended record. -/
theorem record_undo_truncates_appends_advances (s : EditorState)
    (d : UndoRecord) (h : wfLog s) :
    (Undo.record_undo s d).undo_data
      = s.undo_data.take (s.undo_index + 1).toNat ++ [d] ∧
    (Undo.record_undo s d).undo_index = s.undo_index + 1 ∧
    pyGet (Undo.record_undo s d).undo_data (Undo.record_undo s d).undo_index
      = some d ∧
    (Undo.record_undo s d).undo_data.length = (s.undo_index + 1).toNat + 1 := by
  obtain ⟨h1, h2⟩ := h
  have hnn : (0 : Int) ≤ s.undo_index + 1 := by omega
  have hle : (s.undo_index + 1).toNat ≤ s.undo_data.length := by omega
  have hdata : (Undo.record_undo s d).undo_data
      = s.undo_data.take (s.undo_index + 1).toNat ++ [d] := by
    simp [Undo.record_undo, pySliceTo_nonneg _ _ hnn]
  have htake : (s.undo_data.take (s.undo_index + 1).toNat).length
      = (s.undo_index + 1).toNat := by
    simp [List.length_take, Nat.min_eq_left hle]
  refine ⟨hdata, rfl, ?_, ?_⟩
  · have hidx : (Undo.record_undo s d).undo_index = s.undo_index + 1 := rfl
    rw [hdata, hidx]
    exact pyGet_append_singleton_of_eq _ d _ (by rw [htake]; omega)
  · rw [hdata]; simp [htake]

/-- C4 witness: recording over a partially undone two-entry log discards the
forward entry and leaves the cursor on the new record. -/
theorem record_undo_truncates_appends_advances_witness :
    (Undo.record_undo
        { entities := [], selection := [],
          undo_data := [UndoRecord.attrChange [], UndoRecord.attrChange [(0, "x", Val.vnone, Val.vnone)]],
          undo_index := 0 }
        (UndoRecord.deleteEntities [] [])).undo_data
      = [UndoRecord.attrChange [], UndoRecord.deleteEntities [] []] := by
  have h := record_undo_truncates_appends_advances
    { entities := [], selection := [],
      undo_data := [UndoRecord.attrChange [], UndoRecord.attrChange [(0, "x", Val.vnone, Val.vnone)]],
      undo_index := 0 }
    (UndoRecord.deleteEntities [] []) (by constructor <;> simp)
  simpa using h.1

/-- C10: whenever the source guard passes (`cursor ≥ 0` for `undo`,
`cursor+2 ≤ length` for `redo`) on a well-formed log, the cursor moves by
exactly one whatever the entry contains and whatever its application does;
and a failing row of an attribute batch (index out of range) is skipped
while the rest of the batch still applies. -/
theorem cursor_moves_regardless_of_outcome (s : EditorState) (h : wfLog s) :
    (0 ≤ s.undo_index → (Undo.undo s).undo_index = s.undo_index - 1) ∧
    ((s.undo_index + 2 : Int) ≤ s.undo_data.length →
      (Undo.redo s).undo_index = s.undo_index + 1) ∧
    (∀ (c : Nat × String × Val × Val) (cs : List (Nat × String × Val × Val))
        (u : Bool), s.entities[c.1]? = none →
      applyAttrChanges s.entities (c :: cs) u = applyAttrChanges s.entities cs u) := by
  obtain ⟨h1, h2⟩ := h
  refine ⟨?_, ?_, ?_⟩
  · intro hge
    have hlt : s.undo_index.toNat < s.undo_data.length := by omega
    have hsome : pyGet s.undo_data s.undo_index
        = some (s.undo_data[s.undo_index.toNat]) := by
      simp [pyGet, hge, List.getElem?_eq_getElem hlt]
    unfold Undo.undo
    rw [if_neg (by omega), hsome]
  · intro hguard
    have hge0 : (0 : Int) ≤ s.undo_index + 1 := by omega
    have hlt : (s.undo_index + 1).toNat < s.undo_data.length := by omega
    have hsome : pyGet s.undo_data (s.undo_index + 1)
        = some (s.undo_data[(s.undo_index + 1).toNat]) := by
      simp [pyGet, hge0, List.getElem?_eq_getElem hlt]
    unfold Undo.redo
    rw [if_neg (by omega), hsome]
  · intro c cs u hc
    simp [applyAttrChanges, hc]

/-- C10 witness: on a one-entry log whose attribute row refers to index 7 of
an empty registry, undo still moves the cursor from 0 to -1 and the row is
skipped. -/
theorem cursor_moves_regardless_of_outcome_witness :
    (Undo.undo
        { entities := [], selection := [],
          undo_data := [UndoRecord.attrChange [(7, "x", Val.vnone, Val.vnone)]],
          undo_index := 0 }).undo_index = -1 := by
  have h := cursor_moves_regardless_of_outcome
    { entities := [], selection := [],
      undo_data := [UndoRecord.attrChange [(7, "x", Val.vnone, Val.vnone)]],
      undo_index := 0 } (by constructor <;> simp)
  simpa using h.1 (by norm_num)

/-- C9 (code bug): from the rightmost column, the shift+alt 'd' hotkey
clamps the target coordinate to 8 and hands it to `goto_scene`, which then
indexes the 8-by-8 `scenes` grid out of bounds. -/
theorem adjacent_scene_coords_overflow :
    LevelMenu.adjacent_scene_coords (7, 3) 'd' = (8, 3) ∧
    LevelMenu.sceneGridIndexOk 8 3 = false := by
  constructor <;> rfl

/-- C5 counterexample: completing a load leaves the cell's undo log exactly
as it was — the record is still there and the cursor is not reset to -1. -/
theorem load_keeps_undo_counterexample :
    (LevelEditorScene.load [] [] pendingUndoCell).undo_data
      = [UndoRecord.attrChange []] ∧
    (LevelEditorScene.load [] [] pendingUndoCell).undo_index = 0 := by
  constructor <;> rfl

/-- C5 (amended): completing a load appends the file's entities to the
cell's entity list and never touches the cell's undo log; a cell that
already has a live scene root refuses to load; prior in-memory entities are
discarded only by the `unload` that `goto_scene` performs on every cell
first, and even then the undo log survives the reload. -/
theorem load_appends_and_keeps_undo (types : List EntityType) (rows : List Row)
    (s : SceneCell) :
    ((LevelEditorScene.load types rows s).undo_data = s.undo_data ∧
     (LevelEditorScene.load types rows s).undo_index = s.undo_index) ∧
    (s.path = true → s.scene_parent = false →
      (LevelEditorScene.load types rows s).entities
        = (s.entities ++ rows.map (LevelEditorScene.loadRow types)).map
            LevelEditorScene.postLoadFix) ∧
    (s.scene_parent = true → LevelEditorScene.load types rows s = s) ∧
    (s.path = true →
      (LevelEditorScene.load types rows (LevelEditorScene.unload s)).entities
        = (rows.map (LevelEditorScene.loadRow types)).map
            LevelEditorScene.postLoadFix ∧
      (LevelEditorScene.load types rows (LevelEditorScene.unload s)).undo_data
        = s.undo_data ∧
      (LevelEditorScene.load types rows (LevelEditorScene.unload s)).undo_index
        = s.undo_index) := by
  refine ⟨⟨?_, ?_⟩, ?_, ?_, ?_⟩
  · cases hp : s.path <;> cases hsp : s.scene_parent <;>
      simp [LevelEditorScene.load, hp, hsp]
  · cases hp : s.path <;> cases hsp : s.scene_parent <;>
      simp [LevelEditorScene.load, hp, hsp]
  · intro hp hsp
    simp [LevelEditorScene.load, hp, hsp]
  · intro hsp
    cases hp : s.path <;> simp [LevelEditorScene.load, hp, hsp]
  · intro hp
    refine ⟨?_, ?_, ?_⟩ <;>
      simp [LevelEditorScene.load, LevelEditorScene.unload, hp]

/-- C5 amended-theorem witness at a concrete loaded-then-reloaded cell. -/
theorem load_appends_and_keeps_undo_witness :
    (LevelEditorScene.load [] [] pendingUndoCell).entities = [] ∧
    (LevelEditorScene.load [] []
        (LevelEditorScene.unload pendingUndoCell)).undo_data
      = pendingUndoCell.undo_data := by
  constructor
  · exact (load_appends_and_keeps_undo [] [] pendingUndoCell).2.1 rfl rfl
  · exact ((load_appends_and_keeps_undo [] [] pendingUndoCell).2.2.2 rfl).2.1

/-- C7: the registry gains exactly one entity per file row and a load never
aborts because of a row: an uninterpretable cell keeps its raw text, an
unresolved discriminator falls back to the `ErrorEntity` class (kwargs
still applied), and a raising constructor yields a bare `ErrorEntity()`. -/
theorem load_per_row_robustness (types : List EntityType) (rows : List Row) :
    (rows.map (LevelEditorScene.loadRow types)).length = rows.length ∧
    (∀ s : String, parseLitChars s.data = none → pyEvalCell s = Val.vstr s) ∧
    (∀ row : Row, types.find? (fun ty => ty.name == row.className) = none →
      LevelEditorScene.loadRow types row
        = construct "ErrorEntity" errorEntityDefaults
            (LevelEditorScene.rowKwargs row)) ∧
    (∀ row ty, types.find? (fun ty => ty.name == row.className) = some ty →
      ty.ctorFails (LevelEditorScene.rowKwargs row) = true →
      LevelEditorScene.loadRow types row = errorEntity) := by
  refine ⟨by simp, ?_, ?_, ?_⟩
  · intro s h; simp [pyEvalCell, h]
  · intro row h; simp [LevelEditorScene.loadRow, h]
  · intro row ty h hf; simp [LevelEditorScene.loadRow, h, hf]

/-- C7 witness: a raw model name survives as text and an unknown class
becomes an error placeholder. -/
theorem load_per_row_robustness_witness :
    pyEvalCell "cube" = Val.vstr "cube" ∧
    LevelEditorScene.loadRow [] { className := "Missing", cells := [] }
      = construct "ErrorEntity" errorEntityDefaults
          (LevelEditorScene.rowKwargs { className := "Missing", cells := [] }) := by
  constructor
  · exact (load_per_row_robustness [] []).2.1 "cube" (by decide)
  · exact (load_per_row_robustness [] []).2.2.1
      { className := "Missing", cells := [] } rfl

/-! Claim C1: manipulator release. -/
theorem apply_if_eid (sel : List Nat) (e : Ent) :
    (if sel.contains e.eid then restoreParent e else e).eid = e.eid := by
  split <;> rfl

theorem getSnapshot_restoreParent (e : Ent) :
    getSnapshot (restoreParent e) = getSnapshot e := by
  simp [getSnapshot, restoreParent, Ent.attr, Ent.setattr,
    getAttr_setAttr_ne _ _ _ _
      (by decide : "parent" ≠ "_original_world_transform")]

theorem getTransform_restoreParent (e : Ent) :
    getTransform (restoreParent e) = getTransform e := by
  simp [getTransform, restoreParent, Ent.attr, Ent.setattr,
    getAttr_setAttr_ne _ _ _ _ (by decide : "parent" ≠ "world_transform")]

theorem findEnt_restoreParents (es : List Ent) (sel : List Nat) (id : Nat) :
    findEnt (restoreParents es sel) id
      = (findEnt es id).map
          (fun e => if sel.contains e.eid then restoreParent e else e) := by
  induction es with
  | nil => rfl
  | cons e t ih =>
    simp only [restoreParents, List.map_cons, findEnt]
    rw [apply_if_eid]
    by_cases h : e.eid = id
    · simp [h]
    · simpa [h, restoreParents] using ih

theorem entIdx_restoreParents (es : List Ent) (sel : List Nat) (id : Nat) :
    entIdx (restoreParents es sel) id = entIdx es id := by
  induction es with
  | nil => rfl
  | cons e t ih =>
    simp only [restoreParents, List.map_cons, entIdx]
    rw [apply_if_eid]
    by_cases h : e.eid = id
    · simp [h]
    · rw [if_neg h, if_neg h]
      exact congrArg (Option.map (· + 1)) ih

theorem entIdx_isSome_of_findEnt (es : List Ent) (id : Nat) (e : Ent)
    (h : findEnt es id = some e) : ∃ j, entIdx es id = some j := by
  induction es with
  | nil => simp [findEnt] at h
  | cons e' t ih =>
    by_cases hh : e'.eid = id
    · exact ⟨0, by simp [entIdx, hh]⟩
    · simp only [findEnt, hh, if_false] at h
      obtain ⟨j, hj⟩ := ih h
      exact ⟨j + 1, by simp [entIdx, hh, hj]⟩

/-- When every selected entity is present with a snapshot and a transform,
the recorded batch covers the whole selection. -/
theorem transformChanges_length (es : List Ent) (sel : List Nat)
    (h : ∀ id ∈ sel, ∃ e, findEnt es id = some e ∧
          (getSnapshot e).isSome ∧ (getTransform e).isSome) :
    (transformChanges es sel).length = sel.length := by
  induction sel with
  | nil => rfl
  | cons i t ih =>
    obtain ⟨e, he, hs, ht⟩ := h i (by simp)
    obtain ⟨t0, hs0⟩ := Option.isSome_iff_exists.mp hs
    obtain ⟨tr, htr⟩ := Option.isSome_iff_exists.mp ht
    obtain ⟨j, hj⟩ := entIdx_isSome_of_findEnt es i e he
    have ihh := ih (fun id hid => h id (by simp [hid]))
    simp [transformChanges, List.filterMap_cons, hj, he, hs0, htr] at ihh ⊢
    simpa [transformChanges] using ihh

theorem distSq_self (a : Vec3Q) : Vec3Q.distSq a a = 0 := by
  simp [Vec3Q.distSq]

/-- An unmoved entity never passes the epsilon test. -/
theorem movedBeyondEpsilon_self (t : WorldTransform) :
    movedBeyondEpsilon t t = false := by
  simp only [movedBeyondEpsilon, distSq_self, dragEpsilonSq]
  norm_num

theorem gizmoArrow_drop_entities (s : EditorState) (flag : Bool) :
    (GizmoArrow.drop s flag).entities
      = restoreParents s.entities s.selection := by
  unfold GizmoArrow.drop
  split
  · rfl
  · dsimp only
    split <;> rfl

theorem gizmoArrow_drop_of_not_moved (s : EditorState) (flag : Bool)
    (hmv : (flag && firstSelectedMoved (restoreParents s.entities s.selection)
        s.selection) = false) :
    GizmoArrow.drop s flag
      = { s with entities := restoreParents s.entities s.selection } := by
  unfold GizmoArrow.drop
  split
  · rfl
  · simp [hmv]

theorem gizmoArrow_drop_of_moved (s : EditorState) (flag : Bool)
    (hmv : (flag && firstSelectedMoved (restoreParents s.entities s.selection)
        s.selection) = true) :
    GizmoArrow.drop s flag
      = Undo.record_undo { s with entities := restoreParents s.entities s.selection }
          (UndoRecord.attrChange
            (transformChanges (restoreParents s.entities s.selection)
              s.selection)) := by
  unfold GizmoArrow.drop
  split
  · rename_i heq
    rw [heq] at hmv
    simp [firstSelectedMoved] at hmv
  · simp [hmv]

/-- C1 counterexample: with one selected entity that has not moved at all,
releasing the rotation gizmo still records an undo record, so "no record is
written when no entity moved beyond epsilon" fails for the rotate variant
(the scale variant behaves identically). -/
theorem rotation_drop_records_without_motion :
    idleState.selection ≠ [] ∧
    (∀ e ∈ idleState.entities, getTransform e = getSnapshot e) ∧
    movedBeyondEpsilon idleTransform idleTransform = false ∧
    (RotationGizmo.drop idleState).undo_data
      = [UndoRecord.attrChange
          [(0, "world_transform", Val.vtransform idleTransform,
            Val.vtransform idleTransform)]] := by
  refine ⟨by decide, by decide, movedBeyondEpsilon_self _, by decide⟩

/-- C1 (amended): on release with a non-empty selection, every selected
entity's original parent is restored in all three variants; the translate
gizmo emits one batched undo record covering the whole selection if and
only if the FIRST selected entity's transform differs from its snapshot
beyond epsilon (other entities are not compared), while the rotate and
scale gizmos always emit such a batch, moved or not. -/
theorem manipulator_release_undo (s : EditorState)
    (hsel : s.selection ≠ [])
    (hready : ∀ id ∈ s.selection, ∃ e, findEnt s.entities id = some e ∧
        (getSnapshot e).isSome ∧ (getTransform e).isSome) :
    (∀ e ∈ s.entities, ∀ v, e.eid ∈ s.selection →
        e.attr "original_parent" = some v →
        restoreParent e ∈ (GizmoArrow.drop s true).entities ∧
        restoreParent e ∈ (RotationGizmo.drop s).entities ∧
        restoreParent e ∈ (ScaleGizmo.drop s).entities ∧
        (restoreParent e).attr "parent" = some v) ∧
    (firstSelectedMoved (restoreParents s.entities s.selection) s.selection
        = false →
      (GizmoArrow.drop s true).undo_data = s.undo_data ∧
      (GizmoArrow.drop s true).undo_index = s.undo_index) ∧
    (firstSelectedMoved (restoreParents s.entities s.selection) s.selection
        = true →
      (GizmoArrow.drop s true).undo_data
        = pySliceTo s.undo_data (s.undo_index + 1)
            ++ [UndoRecord.attrChange
                  (transformChanges (restoreParents s.entities s.selection)
                    s.selection)]) ∧
    (RotationGizmo.drop s).undo_data
      = pySliceTo s.undo_data (s.undo_index + 1)
          ++ [UndoRecord.attrChange
                (transformChanges (restoreParents s.entities s.selection)
                  s.selection)] ∧
    (ScaleGizmo.drop s).undo_data = (RotationGizmo.drop s).undo_data ∧
    (transformChanges (restoreParents s.entities s.selection) s.selection).length
      = s.selection.length := by
  have hready' : ∀ id ∈ s.selection,
      ∃ e, findEnt (restoreParents s.entities s.selection) id = some e ∧
        (getSnapshot e).isSome ∧ (getTransform e).isSome := by
    intro id hid
    obtain ⟨e, he, hs, ht⟩ := hready id hid
    refine ⟨if s.selection.contains e.eid then restoreParent e else e, ?_, ?_, ?_⟩
    · rw [findEnt_restoreParents, he]; rfl
    · split <;> simp [getSnapshot_restoreParent, hs]
    · split <;> simp [getTransform_restoreParent, ht]
  refine ⟨?_, ?_, ?_, rfl, rfl, transformChanges_length _ _ hready'⟩
  · intro e he v hesel hv
    have hc : s.selection.contains e.eid = true := by
      simpa using hesel
    have hmem : restoreParent e ∈ restoreParents s.entities s.selection := by
      simp only [restoreParents, List.mem_map]
      exact ⟨e, he, by rw [if_pos hc]⟩
    have hv' : getAttr e.attrs "original_parent" = some v := hv
    refine ⟨?_, hmem, hmem, ?_⟩
    · rw [gizmoArrow_drop_entities]; exact hmem
    · simp [restoreParent, Ent.attr, Ent.setattr, hv', getAttr_setAttr_self]
  · intro hmv
    rw [gizmoArrow_drop_of_not_moved s true (by simp [hmv])]
    exact ⟨rfl, rfl⟩
  · intro hmv
    rw [gizmoArrow_drop_of_moved s true (by simp [hmv])]
    rfl

/-- C1 amended-theorem witness at a one-entity selection. -/
theorem manipulator_release_undo_witness :
    (transformChanges
        (restoreParents idleState.entities idleState.selection)
        idleState.selection).length = idleState.selection.length := by
  have h := manipulator_release_undo idleState (by decide) ?_
  · exact h.2.2.2.2.2
  · intro id hid
    have : id = 5 := by simpa [idleState] using hid
    subst this
    exact ⟨idleEnt, by decide, by decide, by decide⟩

theorem set_same (l : List α) (i : Nat) (a : α) (h : l[i]? = some a) :
    l.set i a = l := by
  induction l generalizing i with
  | nil => simp at h
  | cons x t ih =>
    cases i with
    | zero => simp at h; simp [h]
    | succ j => simp at h; simp [ih j h]

/-- Applying an attribute batch never changes which entities are in the
registry. -/
theorem eids_applyAttrChanges (es : List Ent)
    (cs : List (Nat × String × Val × Val)) (u : Bool) :
    (applyAttrChanges es cs u).map Ent.eid = es.map Ent.eid := by
  induction cs generalizing es with
  | nil => rfl
  | cons c t ih =>
    simp only [applyAttrChanges, List.foldl_cons] at *
    cases h : es[c.1]? with
    | none => simp [ih]
    | some e =>
      dsimp only
      rw [ih, List.map_set]
      have heid : (Ent.setattr e c.2.1 (if u then c.2.2.1 else c.2.2.2)).eid
          = e.eid := rfl
      rw [heid]
      apply set_same
      rw [List.getElem?_map, h]
      rfl

theorem mem_eids_pyInsert (es : List Ent) (i : Nat) (x : Ent) (id : Nat)
    (h : id ∈ es.map Ent.eid) : id ∈ (pyInsert es i x).map Ent.eid := by
  have : es.map Ent.eid = (es.take i).map Ent.eid ++ (es.drop i).map Ent.eid := by
    rw [← List.map_append, List.take_append_drop]
  rw [this] at h
  simp only [pyInsert, List.map_append, List.map_cons, List.mem_append,
    List.mem_cons] at *
  tauto

theorem mem_eids_insertClones (es : List Ent) (pairs : List (Nat × Ent))
    (id : Nat) (h : id ∈ es.map Ent.eid) :
    id ∈ (insertClones es pairs).map Ent.eid := by
  induction pairs generalizing es with
  | nil => exact h
  | cons p t ih =>
    simp only [insertClones, List.foldl_cons] at *
    exact ih _ (mem_eids_pyInsert _ _ _ _ h)

theorem mem_foldl_erase (sel : List Nat) (targets : List Ent) (id : Nat)
    (hnd : sel.Nodup)
    (h : id ∈ targets.foldl (fun acc e => acc.erase e.eid) sel) :
    id ∈ sel ∧ ∀ tg ∈ targets, id ≠ tg.eid := by
  induction targets generalizing sel with
  | nil => exact ⟨h, by simp⟩
  | cons t ts ih =>
    simp only [List.foldl_cons] at h
    obtain ⟨hmem, hrest⟩ := ih (sel.erase t.eid) (hnd.erase _) h
    rw [List.Nodup.mem_erase_iff hnd] at hmem
    exact ⟨hmem.2, by
      intro tg htg
      rcases List.mem_cons.mp htg with rfl | htg
      · exact hmem.1
      · exact hrest tg htg⟩

theorem mem_eids_eraseP (es : List Ent) (tid : Nat) (id : Nat)
    (hne : id ≠ tid) (h : id ∈ es.map Ent.eid) :
    id ∈ (es.eraseP (fun x => x.eid == tid)).map Ent.eid := by
  induction es with
  | nil => simp at h
  | cons e t ih =>
    by_cases hp : e.eid = tid
    · simp only [List.eraseP_cons, hp, beq_self_eq_true, cond_true]
      simp only [List.map_cons, List.mem_cons] at h
      rcases h with h | h
      · exact absurd (h.trans hp) hne
      · exact h
    · simp only [List.eraseP_cons, beq_eq_false_iff_ne, ne_eq,
        show (e.eid == tid) = false by simpa using hp, cond_false]
      simp only [List.map_cons, List.mem_cons] at h ⊢
      rcases h with h | h
      · exact Or.inl h
      · exact Or.inr (ih h)

theorem mem_eids_foldl_eraseP (es : List Ent) (targets : List Ent) (id : Nat)
    (hne : ∀ tg ∈ targets, id ≠ tg.eid) (h : id ∈ es.map Ent.eid) :
    id ∈ (targets.foldl
        (fun acc e => acc.eraseP (fun x => x.eid == e.eid)) es).map Ent.eid := by
  induction targets generalizing es with
  | nil => exact h
  | cons t ts ih =>
    simp only [List.foldl_cons]
    exact ih _ (fun tg htg => hne tg (List.mem_cons_of_mem _ htg))
      (mem_eids_eraseP _ _ _ (hne t (List.mem_cons_self _ _)) h)

/-- The shared removal step keeps the selection inside the registry. -/
theorem removeTargets_subset (es : List Ent) (sel : List Nat) (ids : List Nat)
    (hnd : sel.Nodup) (hsub : ∀ id ∈ sel, id ∈ es.map Ent.eid) :
    ∀ id ∈ (removeTargets es sel ids).2,
      id ∈ (removeTargets es sel ids).1.map Ent.eid := by
  unfold removeTargets
  cases hm : mapOpt (fun i => es[i]?) ids with
  | none => exact hsub
  | some targets =>
    intro id hid
    dsimp only at hid ⊢
    obtain ⟨hmem, hne⟩ := mem_foldl_erase sel targets id hnd hid
    exact mem_eids_foldl_eraseP es targets id hne (hsub id hmem)

/-- C8: `delete_selected`, `undo` and `redo` (for every record kind) remove
an entity from the selection in the same operation that removes it from the
registry, so the selection stays a subset of the registry. -/
theorem selection_subset_invariant (s : EditorState)
    (hnd : s.selection.Nodup) (hsub : selectionSubset s) :
    selectionSubset (Deleter.delete_selected s) ∧
    selectionSubset (Undo.undo s) ∧
    selectionSubset (Undo.redo s) := by
  refine ⟨?_, ?_, ?_⟩
  · unfold Deleter.delete_selected
    cases hm : mapOpt (fun id => entIdx s.entities id) s.selection with
    | none => exact hsub
    | some ids => intro id hid; simp at hid
  · unfold Undo.undo
    split
    · exact hsub
    · cases hr : pyGet s.undo_data s.undo_index with
      | none => exact hsub
      | some r =>
        cases r with
        | attrChange cs =>
          intro id hid
          simp only at hid ⊢
          rw [eids_applyAttrChanges]
          exact hsub id hid
        | deleteEntities ids recipes =>
          intro id hid
          exact removeTargets_subset s.entities s.selection ids hnd hsub id hid
        | restoreEntities ids recipes =>
          intro id hid
          exact mem_eids_insertClones _ _ _ (hsub id hid)
  · unfold Undo.redo
    split
    · exact hsub
    · cases hr : pyGet s.undo_data (s.undo_index + 1) with
      | none => exact hsub
      | some r =>
        cases r with
        | attrChange cs =>
          intro id hid
          simp only at hid ⊢
          rw [eids_applyAttrChanges]
          exact hsub id hid
        | deleteEntities ids recipes =>
          intro id hid
          exact mem_eids_insertClones _ _ _ (hsub id hid)
        | restoreEntities ids recipes =>
          intro id hid
          exact removeTargets_subset s.entities s.selection ids hnd hsub id hid

/-- C8 witness: undoing the deletion record of `idleState`'s entity keeps
the (empty) selection inside the registry. -/
theorem selection_subset_invariant_witness :
    selectionSubset (Undo.undo idleState) := by
  have h := selection_subset_invariant idleState (by decide) ?_
  · exact h.2.1
  · intro id hid
    simp [idleState] at hid
    subst hid
    decide

theorem applyAttrChanges_eq_foldl (es : List Ent)
    (cs : List (Nat × String × Val × Val)) (u : Bool) :
    applyAttrChanges es cs u = cs.foldl (stepAttrChange u) es := rfl

theorem isSome_getAttr_setAttr (m : AttrMap) (k a : String) (v : Val)
    (h : (getAttr m a).isSome) : (getAttr (setAttr m k v) a).isSome := by
  by_cases hk : k = a
  · subst hk; simp [getAttr_setAttr_self]
  · rw [getAttr_setAttr_ne _ _ _ _ hk]; exact h

theorem setAttr_setAttr_same (m : AttrMap) (k : String) (v v' : Val) :
    setAttr (setAttr m k v) k v' = setAttr m k v' := by
  induction m with
  | nil => simp [setAttr]
  | cons hd t ih =>
    obtain ⟨k0, v0⟩ := hd
    by_cases hk : k0 = k
    · simp [setAttr, hk]
    · simp [setAttr, hk, ih]

theorem attrPresent_step (es : List Ent) (c : Nat × String × Val × Val)
    (u : Bool) (i : Nat) (a : String) (h : attrPresent es i a) :
    attrPresent (stepAttrChange u es c) i a := by
  obtain ⟨e0, hi, hp⟩ := h
  unfold stepAttrChange
  cases hc : es[c.1]? with
  | none => exact ⟨e0, hi, hp⟩
  | some e =>
    by_cases hic : i = c.1
    · subst hic
      rw [hi] at hc
      obtain rfl := Option.some.inj hc
      exact ⟨_, List.getElem?_set_eq_of_lt _ (List.getElem?_eq_some.mp hi).1,
        isSome_getAttr_setAttr _ _ _ _ hp⟩
    · exact ⟨e0, by
        rw [List.getElem?_set_ne (fun hh => hic hh.symm)]; exact hi, hp⟩

theorem stepAttrChange_comm (es : List Ent) (u u' : Bool)
    (c c' : Nat × String × Val × Val) (hne : chLoc c ≠ chLoc c')
    (hp : attrPresent es c'.1 c'.2.1) :
    stepAttrChange u (stepAttrChange u' es c') c
      = stepAttrChange u' (stepAttrChange u es c) c' := by
  obtain ⟨i, a, w⟩ := c
  obtain ⟨i', a', w'⟩ := c'
  simp only [chLoc, ne_eq, Prod.mk.injEq, not_and] at hne
  by_cases hii : i = i'
  · subst hii
    have ha : ¬ a = a' := hne rfl
    cases he : es[i]? with
    | none => simp [stepAttrChange, he]
    | some e =>
      have hlt : i < es.length := (List.getElem?_eq_some.mp he).1
      have hp' : (getAttr e.attrs a').isSome := by
        obtain ⟨e0, h0, hs⟩ := hp
        simp only at h0
        rw [he] at h0
        obtain rfl := Option.some.inj h0
        exact hs
      simp only [stepAttrChange, he]
      rw [List.getElem?_set_eq_of_lt _ hlt, List.getElem?_set_eq_of_lt _ hlt]
      dsimp only
      rw [List.set_set, List.set_set]
      have hcomm : Ent.setattr (Ent.setattr e a' (if u' then w'.1 else w'.2))
            a (if u then w.1 else w.2)
          = Ent.setattr (Ent.setattr e a (if u then w.1 else w.2))
            a' (if u' then w'.1 else w'.2) := by
        unfold Ent.setattr
        simp only
        rw [setAttr_comm _ _ _ _ _ (fun hh => ha hh.symm) hp']
      rw [hcomm]
  · cases he : es[i]? with
    | none =>
      cases he' : es[i']? with
      | none => simp [stepAttrChange, he, he']
      | some e' =>
        simp only [stepAttrChange, he, he']
        rw [List.getElem?_set_ne (fun hh => hii hh.symm), he]
    | some e =>
      cases he' : es[i']? with
      | none =>
        simp only [stepAttrChange, he, he']
        rw [List.getElem?_set_ne hii, he']
      | some e' =>
        simp only [stepAttrChange, he, he']
        rw [List.getElem?_set_ne (fun hh => hii hh.symm), he,
          List.getElem?_set_ne hii, he']
        dsimp only
        exact List.set_comm _ _ _ (Ne.symm hii)

theorem stepAttrChange_foldl_comm (es : List Ent) (u u' : Bool)
    (c : Nat × String × Val × Val) (cs : List (Nat × String × Val × Val))
    (hne : ∀ c' ∈ cs, chLoc c ≠ chLoc c')
    (hp : ∀ c' ∈ cs, attrPresent es c'.1 c'.2.1) :
    stepAttrChange u (cs.foldl (stepAttrChange u') es) c
      = cs.foldl (stepAttrChange u') (stepAttrChange u es c) := by
  induction cs generalizing es with
  | nil => rfl
  | cons c' cs ih =>
    simp only [List.foldl_cons]
    rw [ih _ (fun x hx => hne x (List.mem_cons_of_mem _ hx))
        (fun x hx => attrPresent_step _ _ _ _ _ (hp x (List.mem_cons_of_mem _ hx)))]
    rw [stepAttrChange_comm es u u' c c' (hne c' (List.mem_cons_self _ _))
        (hp c' (List.mem_cons_self _ _))]

theorem stepAttrChange_cancel (es : List Ent)
    (c : Nat × String × Val × Val) (e : Ent)
    (he : es[c.1]? = some e) (hcur : getAttr e.attrs c.2.1 = some c.2.2.2) :
    stepAttrChange false (stepAttrChange true es c) c = es := by
  have hlt : c.1 < es.length := (List.getElem?_eq_some.mp he).1
  simp only [stepAttrChange, he]
  rw [List.getElem?_set_eq_of_lt _ hlt]
  dsimp only
  rw [List.set_set]
  have h1 : Ent.setattr (Ent.setattr e c.2.1 c.2.2.1) c.2.1 c.2.2.2 = e := by
    unfold Ent.setattr
    simp only
    rw [setAttr_setAttr_same, setAttr_same _ _ _ hcur]
  show es.set c.1 (Ent.setattr (Ent.setattr e c.2.1 c.2.2.1) c.2.1 c.2.2.2) = es
  rw [h1]
  exact set_same es c.1 e he

/-- Undoing then redoing an attribute batch whose rows touch distinct
locations and whose recorded new values are the current ones restores the
registry exactly. -/
theorem applyAttrChanges_roundtrip (es : List Ent)
    (cs : List (Nat × String × Val × Val))
    (hcur : ∀ c ∈ cs, ∃ e, es[c.1]? = some e ∧
        getAttr e.attrs c.2.1 = some c.2.2.2)
    (hnd : (cs.map chLoc).Nodup) :
    applyAttrChanges (applyAttrChanges es cs true) cs false = es := by
  rw [applyAttrChanges_eq_foldl, applyAttrChanges_eq_foldl]
  induction cs generalizing es with
  | nil => rfl
  | cons c cs ih =>
    obtain ⟨e, he, hv⟩ := hcur c (List.mem_cons_self _ _)
    have hne : ∀ c' ∈ cs, chLoc c ≠ chLoc c' := by
      intro c' hc' heq
      have := (List.nodup_cons.mp hnd).1
      exact this (heq ▸ List.mem_map_of_mem chLoc hc')
    have hp : ∀ c' ∈ cs, attrPresent (stepAttrChange true es c) c'.1 c'.2.1 := by
      intro c' hc'
      obtain ⟨e', he', hv'⟩ := hcur c' (List.mem_cons_of_mem _ hc')
      exact attrPresent_step _ _ _ _ _ ⟨e', he', by simp [hv']⟩
    simp only [List.foldl_cons]
    rw [stepAttrChange_foldl_comm _ false true c cs hne hp]
    rw [stepAttrChange_cancel es c e he hv]
    exact ih es (fun c' hc' => hcur c' (List.mem_cons_of_mem _ hc'))
      (List.nodup_cons.mp hnd).2

theorem undo_attrChange_eq (s : EditorState)
    (cs : List (Nat × String × Val × Val)) (h0 : ¬ s.undo_index < 0)
    (hr : pyGet s.undo_data s.undo_index = some (UndoRecord.attrChange cs)) :
    Undo.undo s = { s with entities := applyAttrChanges s.entities cs true,
                           undo_index := s.undo_index - 1 } := by
  unfold Undo.undo
  rw [if_neg h0, hr]

theorem redo_attrChange_eq (s : EditorState)
    (cs : List (Nat × String × Val × Val))
    (hg : ¬ (s.undo_data.length : Int) < s.undo_index + 2)
    (hr : pyGet s.undo_data (s.undo_index + 1)
        = some (UndoRecord.attrChange cs)) :
    Undo.redo s = { s with entities := applyAttrChanges s.entities cs false,
                           undo_index := s.undo_index + 1 } := by
  unfold Undo.redo
  rw [if_neg hg, hr]

theorem undo_index_dec (s : EditorState) (h0 : 0 ≤ s.undo_index)
    (hlt : s.undo_index < s.undo_data.length) :
    (Undo.undo s).undo_index = s.undo_index - 1 := by
  have hlt' : s.undo_index.toNat < s.undo_data.length := by omega
  have hsome : pyGet s.undo_data s.undo_index
      = some (s.undo_data[s.undo_index.toNat]) := by
    simp [pyGet, h0, List.getElem?_eq_getElem hlt']
  unfold Undo.undo
  rw [if_neg (by omega), hsome]

theorem redo_index_inc (s : EditorState) (h0 : -1 ≤ s.undo_index)
    (hg : s.undo_index + 2 ≤ (s.undo_data.length : Int)) :
    (Undo.redo s).undo_index = s.undo_index + 1 := by
  have hge0 : (0 : Int) ≤ s.undo_index + 1 := by omega
  have hlt : (s.undo_index + 1).toNat < s.undo_data.length := by omega
  have hsome : pyGet s.undo_data (s.undo_index + 1)
      = some (s.undo_data[(s.undo_index + 1).toNat]) := by
    simp [pyGet, hge0, List.getElem?_eq_getElem hlt]
  unfold Undo.redo
  rw [if_neg (by omega), hsome]

/-- C3 counterexample: undoing a `'delete entities'` record destroys the
entity and redoing rebuilds it from its recipe with `selectable`, `shader`
and `original_parent` overwritten, so the pre-undo state is not reproduced:
the entity's `selectable`/`shader` flip from `False`/`"matcap"` to
`True`/the default lit shader. -/
theorem undo_redo_alters_recreated_entity :
    Undo.redo (Undo.undo deleteRecState) ≠ deleteRecState ∧
    (Undo.redo (Undo.undo deleteRecState)).entities.map
        (fun e => (e.attr "selectable", e.attr "shader"))
      = [(some (Val.vbool true), some (Val.vstr "lit_with_shadows_shader"))] ∧
    deleteRecState.entities.map
        (fun e => (e.attr "selectable", e.attr "shader"))
      = [(some (Val.vbool false), some (Val.vstr "matcap"))] := by
  refine ⟨by decide, by decide, by decide⟩

/-- C3 (amended): for every record kind, `undo()` then `redo()` restores
the log contents and the cursor exactly; for an attribute-change record
whose rows touch pairwise distinct `(index, attribute)` locations, all in
range and currently holding their recorded new values (as they do right
after recording or redoing), the whole state — registry, attribute values,
selection, log, cursor — is reproduced exactly.  For delete-entities
records exact reproduction fails because the recreated clones are
normalised (see the counterexample). -/
theorem undo_redo_roundtrip (s : EditorState) (hwf : wfLog s)
    (h0 : 0 ≤ s.undo_index) :
    ((Undo.redo (Undo.undo s)).undo_data = s.undo_data ∧
     (Undo.redo (Undo.undo s)).undo_index = s.undo_index) ∧
    (∀ cs, pyGet s.undo_data s.undo_index = some (UndoRecord.attrChange cs) →
      (∀ c ∈ cs, ∃ e, s.entities[c.1]? = some e ∧
          getAttr e.attrs c.2.1 = some c.2.2.2) →
      (cs.map chLoc).Nodup →
      Undo.redo (Undo.undo s) = s) := by
  obtain ⟨h1, h2⟩ := hwf
  have hu := undo_log_cursor s
  have hudec := undo_index_dec s h0 h2
  constructor
  · have hr := redo_log_cursor (Undo.undo s)
    refine ⟨hr.1.trans hu.1, ?_⟩
    have : (Undo.redo (Undo.undo s)).undo_index = (Undo.undo s).undo_index + 1 := by
      apply redo_index_inc
      · omega
      · rw [hu.1, hudec]; omega
    rw [this, hudec]; omega
  · intro cs hr hcur hnd
    have hstep1 : Undo.undo s
        = { s with entities := applyAttrChanges s.entities cs true,
                   undo_index := s.undo_index - 1 } :=
      undo_attrChange_eq s cs (by omega) hr
    rw [hstep1]
    have hstep2 := redo_attrChange_eq
      { s with entities := applyAttrChanges s.entities cs true,
               undo_index := s.undo_index - 1 } cs
      (by simp only []; omega)
      (by simpa using hr)
    rw [hstep2]
    have hcur' : ∀ c ∈ cs, ∃ e, s.entities[c.1]? = some e ∧
        getAttr e.attrs c.2.1 = some c.2.2.2 := hcur
    obtain ⟨es, sel, d, idx⟩ := s
    simp only at *
    rw [applyAttrChanges_roundtrip es cs hcur' hnd]
    simp only [EditorState.mk.injEq]
    exact ⟨by simp, by simp, by simp, by omega⟩

theorem weave_cons (c0 : List Ent) (sel : Ent) (c : List Ent)
    (rest : List (Ent × List Ent)) :
    weave c0 ((sel, c) :: rest) = weave (c0 ++ sel :: c) rest := by
  simp [weave]

theorem restoreClone_eid (e : Ent) : (restoreClone e).eid = e.eid := rfl

theorem entIdx_append_cons (l₁ l₂ : List Ent) (x : Ent)
    (h : ∀ y ∈ l₁, y.eid ≠ x.eid) :
    entIdx (l₁ ++ x :: l₂) x.eid = some l₁.length := by
  induction l₁ with
  | nil => simp [entIdx]
  | cons y t ih =>
    have hy : ¬ y.eid = x.eid := h y (List.mem_cons_self _ _)
    simp only [List.cons_append, entIdx, hy, if_false, List.append_eq]
    rw [ih (fun z hz => h z (List.mem_cons_of_mem _ hz))]
    rfl

theorem findEnt_append_cons (l₁ l₂ : List Ent) (x : Ent)
    (h : ∀ y ∈ l₁, y.eid ≠ x.eid) :
    findEnt (l₁ ++ x :: l₂) x.eid = some x := by
  induction l₁ with
  | nil => simp [findEnt]
  | cons y t ih =>
    have hy : ¬ y.eid = x.eid := h y (List.mem_cons_self _ _)
    simp only [List.cons_append, findEnt, hy, if_false]
    exact ih (fun z hz => h z (List.mem_cons_of_mem _ hz))

theorem weave_head_fresh (c0 : List Ent) (sel : Ent) (c : List Ent)
    (rest : List (Ent × List Ent))
    (hnd : ((weave c0 ((sel, c) :: rest)).map Ent.eid).Nodup) :
    ∀ y ∈ c0, y.eid ≠ sel.eid := by
  intro y hy heq
  have hsplit : (weave c0 ((sel, c) :: rest)).map Ent.eid
      = c0.map Ent.eid ++ sel.eid ::
          (c ++ (rest.map (fun p => p.1 :: p.2)).flatten).map Ent.eid := by
    simp [weave]
  rw [hsplit] at hnd
  have hdisj := (List.nodup_append.mp hnd).2.2
  exact hdisj (List.mem_map_of_mem Ent.eid hy)
    (heq ▸ List.mem_cons_self _ _)

/-- The indices `delete_selected` records for a registry-ordered selection
are the weave positions. -/
theorem weave_entIdx (rest : List (Ent × List Ent)) :
    ∀ c0, ((weave c0 rest).map Ent.eid).Nodup →
    mapOpt (fun id => entIdx (weave c0 rest) id) (rest.map (fun p => p.1.eid))
      = some (weaveIds c0.length rest) := by
  induction rest with
  | nil => intro c0 _; rfl
  | cons p rest ih =>
    obtain ⟨sel, c⟩ := p
    intro c0 hnd
    have hfresh := weave_head_fresh c0 sel c rest hnd
    have hT : weave c0 ((sel, c) :: rest)
        = c0 ++ sel :: (c ++ (rest.map (fun p => p.1 :: p.2)).flatten) := by
      simp [weave]
    have hhead : entIdx (weave c0 ((sel, c) :: rest)) sel.eid
        = some c0.length := by
      rw [hT]; exact entIdx_append_cons _ _ _ hfresh
    have htail := ih (c0 ++ sel :: c) (by rw [← weave_cons]; exact hnd)
    rw [← weave_cons] at htail
    have hlen : (c0 ++ sel :: c).length = c0.length + 1 + c.length := by
      simp; omega
    rw [hlen] at htail
    simp only [List.map_cons, mapOpt, hhead, htail, Option.map_some', weaveIds]

/-- The recipes `delete_selected` records are the selected entities
themselves. -/
theorem weave_findEnt (rest : List (Ent × List Ent)) :
    ∀ c0, ((weave c0 rest).map Ent.eid).Nodup →
    (rest.map (fun p => p.1.eid)).filterMap
        (fun id => findEnt (weave c0 rest) id)
      = rest.map (fun p => p.1) := by
  induction rest with
  | nil => intro c0 _; rfl
  | cons p rest ih =>
    obtain ⟨sel, c⟩ := p
    intro c0 hnd
    have hfresh := weave_head_fresh c0 sel c rest hnd
    have hT : weave c0 ((sel, c) :: rest)
        = c0 ++ sel :: (c ++ (rest.map (fun p => p.1 :: p.2)).flatten) := by
      simp [weave]
    have hhead : findEnt (weave c0 ((sel, c) :: rest)) sel.eid = some sel := by
      rw [hT]; exact findEnt_append_cons _ _ _ hfresh
    have htail := ih (c0 ++ sel :: c) (by rw [← weave_cons]; exact hnd)
    rw [← weave_cons] at htail
    simp only [List.map_cons, List.filterMap_cons, hhead, htail]

/-- Removing the selected entities in selection order leaves exactly the
unselected chunks. -/
theorem weave_erase (rest : List (Ent × List Ent)) :
    ∀ c0, ((weave c0 rest).map Ent.eid).Nodup →
    (rest.map (fun p => p.1.eid)).foldl
        (fun acc id => acc.eraseP (fun x => x.eid == id)) (weave c0 rest)
      = c0 ++ (rest.map (fun p => p.2)).flatten := by
  induction rest with
  | nil => intro c0 _; simp [weave]
  | cons p rest ih =>
    obtain ⟨sel, c⟩ := p
    intro c0 hnd
    have hfresh := weave_head_fresh c0 sel c rest hnd
    simp only [List.map_cons, List.foldl_cons]
    have herase : (weave c0 ((sel, c) :: rest)).eraseP
        (fun x => x.eid == sel.eid) = weave (c0 ++ c) rest := by
      have hT : weave c0 ((sel, c) :: rest)
          = c0 ++ sel :: (c ++ (rest.map (fun p => p.1 :: p.2)).flatten) := by
        simp [weave]
      rw [hT]
      rw [List.eraseP_append_right _
          (fun b hb => by simpa using hfresh b hb)]
      rw [List.eraseP_cons_of_pos (by simp)]
      simp [weave]
    rw [herase]
    have hnd' : ((weave (c0 ++ c) rest).map Ent.eid).Nodup := by
      have hsub : List.Sublist (weave (c0 ++ c) rest)
          (weave c0 ((sel, c) :: rest)) := by
        have e1 : weave (c0 ++ c) rest
            = c0 ++ (c ++ (rest.map (fun p => p.1 :: p.2)).flatten) := by
          simp [weave]
        have e2 : weave c0 ((sel, c) :: rest)
            = c0 ++ sel :: (c ++ (rest.map (fun p => p.1 :: p.2)).flatten) := by
          simp [weave]
        rw [e1, e2]
        exact List.Sublist.append_left (List.sublist_cons_self _ _) c0
      exact List.Nodup.sublist (List.Sublist.map Ent.eid hsub) hnd
    rw [ih (c0 ++ c) hnd']
    simp

/-- Re-inserting the reconstructed clones at the recorded positions, in
recorded order, rebuilds the weave with each selected entity replaced by
its normalised clone. -/
theorem weave_insert (rest : List (Ent × List Ent)) :
    ∀ c0, insertClones (c0 ++ (rest.map (fun p => p.2)).flatten)
        ((weaveIds c0.length rest).zip (rest.map (fun p => p.1)))
      = weave c0 (rest.map (fun p => (restoreClone p.1, p.2))) := by
  induction rest with
  | nil => intro c0; simp [insertClones, weave]
  | cons p rest ih =>
    obtain ⟨sel, c⟩ := p
    intro c0
    simp only [List.map_cons, weaveIds, List.zip_cons_cons, insertClones,
      List.foldl_cons]
    have hflat : (c :: rest.map (fun p => p.2)).flatten
        = c ++ (rest.map (fun p => p.2)).flatten := by simp
    have h1 : pyInsert (c0 ++ (c :: rest.map (fun p => p.2)).flatten)
          c0.length (restoreClone sel)
        = (c0 ++ restoreClone sel :: c) ++ (rest.map (fun p => p.2)).flatten := by
      rw [hflat, ← List.append_assoc]
      have := pyInsert_append c0 (c ++ (rest.map (fun p => p.2)).flatten)
        (restoreClone sel)
      rw [List.append_assoc]
      rw [this]
      simp
    rw [h1]
    have hlen : c0.length + 1 + c.length = (c0 ++ restoreClone sel :: c).length := by
      simp; omega
    rw [hlen]
    have hrec := ih (c0 ++ restoreClone sel :: c)
    simp only [insertClones] at hrec
    rw [hrec, ← weave_cons]

theorem weave_map_eid_clone (rest : List (Ent × List Ent)) :
    ∀ c0 c0', c0'.map Ent.eid = c0.map Ent.eid →
    (weave c0' (rest.map (fun p => (restoreClone p.1, p.2)))).map Ent.eid
      = (weave c0 rest).map Ent.eid := by
  induction rest with
  | nil => intro c0 c0' h; simpa [weave] using h
  | cons p rest ih =>
    obtain ⟨sel, c⟩ := p
    intro c0 c0' h
    simp only [List.map_cons, weave_cons]
    apply ih
    simp [h, restoreClone_eid]

theorem weave_length (rest : List (Ent × List Ent)) :
    ∀ c0, (weave c0 rest).length
      = (c0 ++ (rest.map (fun p => p.2)).flatten).length + rest.length := by
  induction rest with
  | nil => intro c0; simp [weave]
  | cons p rest ih =>
    obtain ⟨sel, c⟩ := p
    intro c0
    rw [weave_cons, ih (c0 ++ sel :: c)]
    simp
    omega

/-- C2 counterexample: deleting the reversed-order selection and undoing
puts entity 2 back at registry index 2 instead of its original index 1, so
the restored entities do not occupy their original registry positions. -/
theorem delete_undo_misplaces_counterexample :
    (Undo.undo (Deleter.delete_selected reversedSelState)).entities.map Ent.eid
      = [1, 3, 2, 4] ∧
    reversedSelState.entities.map Ent.eid = [1, 2, 3, 4] := by
  refine ⟨by decide, by decide⟩

/-- C2 (amended): for every registry decomposed around a selection listed
in registry order (distinct entities), deleting the selection and undoing
restores exactly k entities at their original registry positions, each
equal to the original except that the undo engine overwrites `selectable`
(to true), `original_parent` (to the restored parent) and `shader` (to the
default lit shader) on the reconstructed clone; for selections out of
registry order the restored positions can differ (see the
counterexample). -/
theorem delete_selected_undo_restores (c0 : List Ent)
    (rest : List (Ent × List Ent)) (L : List UndoRecord) (idx : Int)
    (hne : rest ≠ [])
    (hnd : ((weave c0 rest).map Ent.eid).Nodup)
    (h1 : -1 ≤ idx) (h2 : idx < L.length) :
    (Undo.undo (Deleter.delete_selected
        { entities := weave c0 rest,
          selection := rest.map (fun p => p.1.eid),
          undo_data := L, undo_index := idx })).entities
      = weave c0 (rest.map (fun p => (restoreClone p.1, p.2))) ∧
    (Undo.undo (Deleter.delete_selected
        { entities := weave c0 rest,
          selection := rest.map (fun p => p.1.eid),
          undo_data := L, undo_index := idx })).entities.map Ent.eid
      = (weave c0 rest).map Ent.eid ∧
    (Deleter.delete_selected
        { entities := weave c0 rest,
          selection := rest.map (fun p => p.1.eid),
          undo_data := L, undo_index := idx }).entities.length + rest.length
      = (weave c0 rest).length ∧
    (Undo.undo (Deleter.delete_selected
        { entities := weave c0 rest,
          selection := rest.map (fun p => p.1.eid),
          undo_data := L, undo_index := idx })).selection = [] ∧
    (Undo.undo (Deleter.delete_selected
        { entities := weave c0 rest,
          selection := rest.map (fun p => p.1.eid),
          undo_data := L, undo_index := idx })).undo_index = idx := by
  have hids := weave_entIdx rest c0 hnd
  have hrec := weave_findEnt rest c0 hnd
  have herase := weave_erase rest c0 hnd
  have hdel : Deleter.delete_selected
      { entities := weave c0 rest,
        selection := rest.map (fun p => p.1.eid),
        undo_data := L, undo_index := idx }
      = { entities := c0 ++ (rest.map (fun p => p.2)).flatten,
          selection := [],
          undo_data := pySliceTo L (idx + 1)
            ++ [UndoRecord.restoreEntities (weaveIds c0.length rest)
                  (rest.map (fun p => p.1))],
          undo_index := idx + 1 } := by
    unfold Deleter.delete_selected
    dsimp only
    rw [hids]
    dsimp only [Undo.record_undo]
    rw [hrec, herase]
  rw [hdel]
  have htake : (pySliceTo L (idx + 1)).length = (idx + 1).toNat := by
    rw [pySliceTo_nonneg _ _ (by omega)]
    simp [List.length_take]
    omega
  have hpg : pyGet (pySliceTo L (idx + 1)
        ++ [UndoRecord.restoreEntities (weaveIds c0.length rest)
              (rest.map (fun p => p.1))]) (idx + 1)
      = some (UndoRecord.restoreEntities (weaveIds c0.length rest)
              (rest.map (fun p => p.1))) := by
    apply pyGet_append_singleton_of_eq
    rw [htake]; omega
  have hundo : Undo.undo
      { entities := c0 ++ (rest.map (fun p => p.2)).flatten,
        selection := [],
        undo_data := pySliceTo L (idx + 1)
          ++ [UndoRecord.restoreEntities (weaveIds c0.length rest)
                (rest.map (fun p => p.1))],
        undo_index := idx + 1 }
      = { entities := insertClones (c0 ++ (rest.map (fun p => p.2)).flatten)
            ((weaveIds c0.length rest).zip (rest.map (fun p => p.1))),
          selection := [],
          undo_data := pySliceTo L (idx + 1)
            ++ [UndoRecord.restoreEntities (weaveIds c0.length rest)
                  (rest.map (fun p => p.1))],
          undo_index := idx + 1 - 1 } := by
    unfold Undo.undo
    rw [if_neg (by dsimp only; omega)]
    dsimp only
    rw [hpg]
  rw [hundo]
  have hmain : insertClones (c0 ++ (rest.map (fun p => p.2)).flatten)
        ((weaveIds c0.length rest).zip (rest.map (fun p => p.1)))
      = weave c0 (rest.map (fun p => (restoreClone p.1, p.2))) :=
    weave_insert rest c0
  refine ⟨hmain, ?_, ?_, rfl, by dsimp only; omega⟩
  · rw [hmain]
    exact weave_map_eid_clone rest c0 c0 rfl
  · dsimp only
    rw [weave_length rest c0]

/-- C2 amended-theorem witness: registry `[e1, e2, e3]` with `e1, e3`
selected in registry order round-trips through delete and undo. -/
theorem delete_selected_undo_restores_witness :
    (Undo.undo (Deleter.delete_selected
        { entities := weave [] [(mkPlainEnt 1, [mkPlainEnt 2]), (mkPlainEnt 3, [])],
          selection := [(mkPlainEnt 1, [mkPlainEnt 2]), (mkPlainEnt 3, [])].map
            (fun p => p.1.eid),
          undo_data := [UndoRecord.attrChange []], undo_index := 0 })).entities
      = weave [] ([(mkPlainEnt 1, [mkPlainEnt 2]), (mkPlainEnt 3, [])].map
          (fun p => (restoreClone p.1, p.2))) := by
  exact (delete_selected_undo_restores []
    [(mkPlainEnt 1, [mkPlainEnt 2]), (mkPlainEnt 3, [])]
    [UndoRecord.attrChange []] 0 (by decide) (by decide)
    (by norm_num) (by norm_num)).1

theorem digitCh_isDigit (d : Nat) (h : d < 10) : isDigitCh (digitCh d) = true := by
  interval_cases d <;> decide

theorem chDigit_digitCh (d : Nat) (h : d < 10) : chDigit (digitCh d) = d := by
  interval_cases d <;> decide

theorem printNatChars_ne_nil (n : Nat) : printNatChars n ≠ [] := by
  unfold printNatChars
  split
  · simp
  · rename_i h
    simp [Nat.digits_ne_nil_iff_ne_zero, h]

theorem printNatChars_digits (n : Nat) :
    ∀ c ∈ printNatChars n, isDigitCh c = true := by
  intro c hc
  unfold printNatChars at hc
  split at hc
  · simp at hc; subst hc; decide
  · simp only [List.mem_reverse, List.mem_map] at hc
    obtain ⟨d, hd, rfl⟩ := hc
    exact digitCh_isDigit d (Nat.digits_lt_base (by norm_num) hd)

theorem digitsToNat_printNatChars (n : Nat) :
    digitsToNat (printNatChars n) = n := by
  unfold printNatChars
  split
  · rename_i h; subst h; decide
  · rename_i h
    unfold digitsToNat
    rw [List.map_reverse, List.reverse_reverse, List.map_map]
    rw [show (chDigit ∘ digitCh) = fun d => chDigit (digitCh d) from rfl]
    rw [List.map_congr_left
      (fun d hd => chDigit_digitCh d (Nat.digits_lt_base (by norm_num) hd))]
    simp [Nat.ofDigits_digits]

theorem parseNatChars_printNatChars (n : Nat) :
    parseNatChars (printNatChars n) = some n := by
  unfold parseNatChars
  rw [if_pos ⟨printNatChars_ne_nil n, by
    simpa [List.all_eq_true] using printNatChars_digits n⟩]
  rw [digitsToNat_printNatChars]

theorem isDigitCh_ne_dash (c : Char) (h : isDigitCh c = true) : c ≠ '-' := by
  intro he; subst he; exact absurd h (by decide)

theorem parseIntChars_printIntChars (i : Int) :
    parseIntChars (printIntChars i) = some i := by
  unfold printIntChars
  split
  · rename_i hneg
    show parseIntChars ('-' :: printNatChars (-i).toNat) = some i
    unfold parseIntChars
    dsimp only
    rw [if_pos rfl, parseNatChars_printNatChars]
    simp
    omega
  · rename_i hpos
    obtain ⟨c, t, hct⟩ : ∃ c t, printNatChars i.toNat = c :: t := by
      cases h : printNatChars i.toNat with
      | nil => exact absurd h (printNatChars_ne_nil _)
      | cons c t => exact ⟨c, t, rfl⟩
    rw [hct]
    have hd : isDigitCh c = true :=
      printNatChars_digits i.toNat c (by rw [hct]; exact List.mem_cons_self _ _)
    unfold parseIntChars
    dsimp only
    rw [if_neg (isDigitCh_ne_dash c hd), ← hct, parseNatChars_printNatChars]
    simp
    omega

theorem splitAtCh_append (c : Char) (a b : List Char) (h : ∀ x ∈ a, x ≠ c) :
    splitAtCh c (a ++ c :: b) = some (a, b) := by
  induction a with
  | nil => simp [splitAtCh]
  | cons x t ih =>
    have hx : ¬ x = c := h x (List.mem_cons_self _ _)
    simp only [List.cons_append, splitAtCh, hx, if_false, List.append_eq]
    rw [ih (fun z hz => h z (List.mem_cons_of_mem _ hz))]
    rfl

theorem printIntChars_intish (i : Int) :
    ∀ c ∈ printIntChars i, intishCh c = true := by
  intro c hc
  unfold printIntChars at hc
  split at hc
  · rcases List.mem_cons.mp hc with rfl | hc
    · decide
    · simp [intishCh, printNatChars_digits _ c hc]
  · simp [intishCh, printNatChars_digits _ c hc]

theorem intishCh_ne (c : Char) (h : intishCh c = true) :
    c ≠ ',' ∧ c ≠ ')' ∧ c ≠ '\'' ∧ c ≠ 'V' ∧ c ≠ 'T' ∧ c ≠ 'F' ∧ c ≠ 'N' := by
  have h' : isDigitCh c = true ∨ c = '-' := by simpa [intishCh] using h
  rcases h' with hd | hdash
  · refine ⟨?_, ?_, ?_, ?_, ?_, ?_, ?_⟩ <;> intro he <;> subst he <;>
      exact absurd hd (by decide)
  · subst hdash
    exact ⟨by decide, by decide, by decide, by decide, by decide, by decide,
      by decide⟩

theorem cons_ne_of_head (c c' : Char) (t t' : List Char) (h : c ≠ c') :
    c :: t ≠ c' :: t' := by
  intro he
  injection he with h1 _
  exact h h1

theorem parseNatChars_head_not_digit (c : Char) (t : List Char)
    (h : isDigitCh c = false) : parseNatChars (c :: t) = none := by
  unfold parseNatChars
  rw [if_neg]
  intro hcl
  have := hcl.2
  rw [List.all_cons, h] at this
  simp at this

theorem parseLitChars_printIntChars (n : Int) :
    parseLitChars (printIntChars n) = some (Val.vint n) := by
  obtain ⟨c, t, hct⟩ : ∃ c t, printIntChars n = c :: t := by
    unfold printIntChars
    split
    · exact ⟨_, _, rfl⟩
    · cases h : printNatChars n.toNat with
      | nil => exact absurd h (printNatChars_ne_nil _)
      | cons c t => exact ⟨c, t, rfl⟩
  have hint : intishCh c = true :=
    printIntChars_intish n c (by rw [hct]; exact List.mem_cons_self _ _)
  obtain ⟨_, _, hq, _, hT, hF, hN⟩ := intishCh_ne c hint
  rw [hct]
  unfold parseLitChars
  rw [if_neg (cons_ne_of_head _ _ _ _ hT), if_neg (cons_ne_of_head _ _ _ _ hF),
    if_neg (cons_ne_of_head _ _ _ _ hN)]
  dsimp only
  rw [if_neg hq, ← hct, parseIntChars_printIntChars]

theorem parseLitChars_quoted (sd : List Char) (h : ∀ x ∈ sd, x ≠ '\'') :
    parseLitChars ('\'' :: (sd ++ ['\''])) = some (Val.vstr (String.mk sd)) := by
  unfold parseLitChars
  rw [if_neg (cons_ne_of_head _ _ _ _ (by decide)),
    if_neg (cons_ne_of_head _ _ _ _ (by decide)),
    if_neg (cons_ne_of_head _ _ _ _ (by decide))]
  dsimp only
  rw [if_pos rfl]
  rw [show sd ++ ['\''] = sd ++ '\'' :: [] from rfl, splitAtCh_append _ _ _ h]

theorem parseLitChars_printVec3 (x y z : Int) :
    parseLitChars
        ('V' :: 'e' :: 'c' :: '3' :: '(' :: (printIntChars x ++
          ',' :: ' ' :: (printIntChars y ++
            ',' :: ' ' :: (printIntChars z ++ [')']))))
      = some (Val.vvec3 x y z) := by
  unfold parseLitChars
  rw [if_neg (cons_ne_of_head _ _ _ _ (by decide)),
    if_neg (cons_ne_of_head _ _ _ _ (by decide)),
    if_neg (cons_ne_of_head _ _ _ _ (by decide))]
  dsimp only
  rw [if_neg (by decide)]
  have hx := fun c hc => (intishCh_ne c (printIntChars_intish x c hc))
  have hy := fun c hc => (intishCh_ne c (printIntChars_intish y c hc))
  have hz := fun c hc => (intishCh_ne c (printIntChars_intish z c hc))
  have hdig : isDigitCh 'V' = false := by decide
  have hint : parseIntChars ('V' :: 'e' :: 'c' :: '3' :: '(' :: (printIntChars x ++
      ',' :: ' ' :: (printIntChars y ++
        ',' :: ' ' :: (printIntChars z ++ [')'])))) = none := by
    unfold parseIntChars
    dsimp only
    rw [if_neg (by decide)]
    rw [parseNatChars_head_not_digit _ _ hdig]
    rfl
  rw [hint]
  show parseVec3Chars _ = _
  unfold parseVec3Chars
  dsimp only
  rw [if_pos ⟨rfl, rfl, rfl, rfl, rfl⟩]
  rw [splitAtCh_append _ _ _ (fun ch hch => (hx ch hch).1)]
  dsimp only
  rw [if_pos rfl]
  rw [splitAtCh_append _ _ _ (fun ch hch => (hy ch hch).1)]
  dsimp only
  rw [if_pos rfl]
  rw [show printIntChars z ++ [')'] = printIntChars z ++ ')' :: [] from rfl,
    splitAtCh_append _ _ _ (fun ch hch => (hz ch hch).2.1)]
  dsimp only
  rw [parseIntChars_printIntChars, parseIntChars_printIntChars,
    parseIntChars_printIntChars]

theorem string_data_append (a b : String) : (a ++ b).data = a.data ++ b.data := by
  rfl

/-- The printed cell of a serializable value evaluates back to the value. -/
theorem pyEvalCell_pyStrVal (v : Val) (h : serializableVal v = true) :
    pyEvalCell (pyStrVal v) = v := by
  cases v with
  | vint n =>
      unfold pyEvalCell
      rw [show (pyStrVal (Val.vint n)).data = printIntChars n from rfl]
      rw [parseLitChars_printIntChars]
  | vbool b => cases b <;> rfl
  | vnone => simp [serializableVal] at h
  | vstr s =>
      simp only [serializableVal, Bool.and_eq_true, Option.isNone_iff_eq_none,
        decide_eq_true_eq] at h
      unfold pyEvalCell
      rw [show pyStrVal (Val.vstr s) = s from rfl, h.2]
  | vvec3 x y z =>
      unfold pyEvalCell
      rw [show (pyStrVal (Val.vvec3 x y z)).data
        = 'V' :: 'e' :: 'c' :: '3' :: '(' :: (printIntChars x ++
            ',' :: ' ' :: (printIntChars y ++
              ',' :: ' ' :: (printIntChars z ++ [')']))) from rfl]
      rw [parseLitChars_printVec3]
  | vtransform t => simp [serializableVal] at h
  | vsceneParent => simp [serializableVal] at h

/-- The quoted form `save` gives `collider_type` evaluates back to the
plain string, provided the string holds no quote character. -/
theorem pyEvalCell_quoted (s : String) (h : ∀ x ∈ s.data, x ≠ '\'') :
    pyEvalCell ("'" ++ s ++ "'") = Val.vstr s := by
  unfold pyEvalCell
  have hd : ("'" ++ s ++ "'").data = '\'' :: (s.data ++ ['\'']) := by
    rw [string_data_append, string_data_append]
    rfl
  rw [hd, parseLitChars_quoted s.data h]

theorem getAttr_eq_none_iff (m : AttrMap) (k : String) :
    getAttr m k = none ↔ k ∉ m.map Prod.fst := by
  induction m with
  | nil => simp [getAttr]
  | cons kv t ih =>
    obtain ⟨k0, v0⟩ := kv
    simp only [List.map_cons, List.mem_cons]
    by_cases hk : k0 = k
    · subst hk
      simp [getAttr]
    · rw [show getAttr ((k0, v0) :: t) k = getAttr t k by simp [getAttr, hk]]
      rw [ih]
      constructor
      · intro h hor
        rcases hor with he | hm
        · exact hk he.symm
        · exact h hm
      · intro h hm
        exact h (Or.inr hm)

theorem mem_of_getAttr (m : AttrMap) (k : String) (v : Val)
    (h : getAttr m k = some v) : (k, v) ∈ m := by
  induction m with
  | nil => simp [getAttr] at h
  | cons kv t ih =>
    obtain ⟨k0, v0⟩ := kv
    by_cases hk : k0 = k
    · subst hk
      have h' : some v0 = some v := by simpa [getAttr] using h
      obtain rfl := Option.some.inj h'
      exact List.mem_cons_self _ _
    · simp only [getAttr, hk, if_false] at h
      exact List.mem_cons_of_mem _ (ih h)

theorem getAttr_mapVal (m : AttrMap) (f : String → Val → Val) (k : String) :
    getAttr (m.map (fun kv => (kv.1, f kv.1 kv.2))) k
      = (getAttr m k).map (f k) := by
  induction m with
  | nil => rfl
  | cons kv t ih =>
    obtain ⟨k0, v0⟩ := kv
    by_cases hk : k0 = k
    · subst hk; simp [getAttr]
    · simp [getAttr, hk, ih]

theorem keys_mapVal (m : AttrMap) (f : String → Val → Val) :
    (m.map (fun kv => (kv.1, f kv.1 kv.2))).map Prod.fst = m.map Prod.fst := by
  induction m with
  | nil => rfl
  | cons kv t ih => simp [ih]

theorem getAttr_filter (m : AttrMap) (p : String × Val → Bool) (k : String)
    (hnd : (m.map Prod.fst).Nodup) :
    getAttr (m.filter p) k
      = match getAttr m k with
        | some v => if p (k, v) then some v else none
        | none => none := by
  induction m with
  | nil => rfl
  | cons kv t ih =>
    obtain ⟨k0, v0⟩ := kv
    have hnd' : (t.map Prod.fst).Nodup := (List.nodup_cons.mp hnd).2
    have hk0 : k0 ∉ t.map Prod.fst := (List.nodup_cons.mp hnd).1
    by_cases hk : k0 = k
    · subst hk
      cases hp : p (k0, v0) with
      | true => simp [List.filter_cons, hp, getAttr]
      | false =>
          simp only [List.filter_cons, hp, getAttr, if_pos rfl]
          have : getAttr (t.filter p) k0 = none := by
            rw [getAttr_eq_none_iff]
            intro hmem
            exact hk0 (List.Sublist.mem hmem
              (List.Sublist.map Prod.fst (List.filter_sublist t)))
          simp [this, hp]
    · cases hp : p (k0, v0) <;>
        simp [List.filter_cons, hp, getAttr, hk, ih hnd']

theorem getAttr_foldl_setAttr (kw : AttrMap) :
    ∀ (m : AttrMap), (kw.map Prod.fst).Nodup → ∀ k,
    getAttr (kw.foldl (fun acc kv => setAttr acc kv.1 kv.2) m) k
      = match getAttr kw k with
        | some v => some v
        | none => getAttr m k := by
  induction kw with
  | nil => intro m _ k; rfl
  | cons kv t ih =>
    obtain ⟨k0, v0⟩ := kv
    intro m hnd k
    have hnd' : (t.map Prod.fst).Nodup := (List.nodup_cons.mp hnd).2
    have hk0 : k0 ∉ t.map Prod.fst := (List.nodup_cons.mp hnd).1
    simp only [List.foldl_cons]
    rw [ih (setAttr m k0 v0) hnd' k]
    by_cases hk : k0 = k
    · subst hk
      rw [(getAttr_eq_none_iff t k0).mpr hk0]
      simp [getAttr, getAttr_setAttr_self]
    · simp only [getAttr, hk, if_false]
      cases h : getAttr t k <;>
        simp [h, getAttr_setAttr_ne _ _ _ _ hk]

theorem keys_setAttr_mem (m : AttrMap) (k k' : String) (v : Val) :
    k' ∈ (setAttr m k v).map Prod.fst ↔ k' ∈ m.map Prod.fst ∨ k' = k := by
  induction m with
  | nil => simp [setAttr]
  | cons kv t ih =>
    obtain ⟨k0, v0⟩ := kv
    by_cases hk : k0 = k
    · subst hk
      simp [setAttr]
      tauto
    · simp [setAttr, hk, ih]
      tauto

theorem nodup_keys_setAttr (m : AttrMap) (k : String) (v : Val)
    (h : (m.map Prod.fst).Nodup) :
    ((setAttr m k v).map Prod.fst).Nodup := by
  induction m with
  | nil => simp [setAttr]
  | cons kv t ih =>
    obtain ⟨k0, v0⟩ := kv
    have h' : k0 ∉ t.map Prod.fst ∧ (t.map Prod.fst).Nodup :=
      List.nodup_cons.mp h
    by_cases hk : k0 = k
    · subst hk
      have hgoal : (setAttr ((k0, v0) :: t) k0 v).map Prod.fst
          = ((k0, v0) :: t).map Prod.fst := by
        simp [setAttr]
      rw [hgoal]
      exact h
    · simp only [setAttr, hk, if_false, List.map_cons]
      rw [List.nodup_cons]
      refine ⟨?_, ih h'.2⟩
      intro hmem
      rcases (keys_setAttr_mem t k k0 v).mp hmem with hm | he
      · exact h'.1 hm
      · exact hk he

theorem nodup_keys_filter (m : AttrMap) (p : String × Val → Bool)
    (h : (m.map Prod.fst).Nodup) : ((m.filter p).map Prod.fst).Nodup :=
  List.Nodup.sublist (List.Sublist.map Prod.fst (List.filter_sublist m)) h

theorem getAttr_get_changes (D : AttrMap) (e : Ent) (k : String)
    (hnd : (e.attrs.map Prod.fst).Nodup) :
    getAttr (get_changes D e) k
      = match getAttr e.attrs k with
        | some v => if getAttr D k = some v then none else some v
        | none => none := by
  unfold get_changes
  rw [getAttr_filter _ _ _ hnd]
  cases h : getAttr e.attrs k with
  | none => rfl
  | some v =>
      by_cases hd : getAttr D k = some v <;> simp [hd]

theorem nodup_keys_savedChanges (D : AttrMap) (e : Ent)
    (hnd : (e.attrs.map Prod.fst).Nodup) :
    ((savedChanges D e).map Prod.fst).Nodup := by
  have h1 : (((get_changes D e).map
      (fun kv => (kv.1, noneToFalse kv.2))).map Prod.fst).Nodup := by
    rw [keys_mapVal (get_changes D e) (fun _ v => noneToFalse v)]
    exact nodup_keys_filter _ _ hnd
  unfold savedChanges
  cases Ent.attr e "collider_type" with
  | none => exact h1
  | some ct => exact nodup_keys_setAttr _ _ _ h1

theorem getAttr_savedChanges_ct (D : AttrMap) (e : Ent) (str : String)
    (hct : getAttr e.attrs "collider_type" = some (Val.vstr str)) :
    getAttr (savedChanges D e) "collider_type"
      = some (Val.vstr ("'" ++ str ++ "'")) := by
  unfold savedChanges
  rw [show Ent.attr e "collider_type"
    = some (Val.vstr str) from hct]
  dsimp only
  rw [getAttr_setAttr_self]
  rfl

theorem getAttr_savedChanges_ne_ct (D : AttrMap) (e : Ent) (k : String)
    (hk : k ≠ "collider_type") (hnd : (e.attrs.map Prod.fst).Nodup) :
    getAttr (savedChanges D e) k
      = (match getAttr e.attrs k with
          | some v => if getAttr D k = some v then none else some v
          | none => none).map noneToFalse := by
  have hbase : getAttr ((get_changes D e).map
        (fun kv => (kv.1, noneToFalse kv.2))) k
      = (getAttr (get_changes D e) k).map (fun v => noneToFalse v) := by
    exact getAttr_mapVal (get_changes D e) (fun _ v => noneToFalse v) k
  unfold savedChanges
  cases hc : Ent.attr e "collider_type" with
  | none =>
      rw [hbase, getAttr_get_changes D e k hnd]
  | some ct =>
      dsimp only
      rw [getAttr_setAttr_ne _ _ _ _ (fun h => hk h.symm)]
      rw [hbase, getAttr_get_changes D e k hnd]

theorem rowKwargs_saveRow (D : AttrMap) (e : Ent)
    (hnn : ∀ kv ∈ savedChanges D e, pyStrVal kv.2 ≠ "")
    (hpar : "parent" ∉ (savedChanges D e).map Prod.fst) :
    LevelEditorScene.rowKwargs (LevelEditorScene.saveRow D e)
      = setAttr ((savedChanges D e).map
          (fun kv => (kv.1, pyEvalCell (pyStrVal kv.2))))
          "parent" Val.vsceneParent := by
  unfold LevelEditorScene.rowKwargs LevelEditorScene.saveRow
  dsimp only
  rw [List.filter_eq_self.mpr ?_]
  · rw [List.map_map]
    rfl
  · intro cell hcell
    obtain ⟨kv, hkv, rfl⟩ := List.mem_map.mp hcell
    have h1 : pyStrVal kv.2 ≠ "" := hnn kv hkv
    have h2 : kv.1 ≠ "parent" := by
      intro he
      exact hpar (he ▸ List.mem_map_of_mem Prod.fst hkv)
    simp [h1, h2]

theorem nodup_keys_rowKwargs_saveRow (D : AttrMap) (e : Ent)
    (hnd : (e.attrs.map Prod.fst).Nodup)
    (hnn : ∀ kv ∈ savedChanges D e, pyStrVal kv.2 ≠ "")
    (hpar : "parent" ∉ (savedChanges D e).map Prod.fst) :
    ((LevelEditorScene.rowKwargs (LevelEditorScene.saveRow D e)).map
      Prod.fst).Nodup := by
  rw [rowKwargs_saveRow D e hnn hpar]
  apply nodup_keys_setAttr
  rw [keys_mapVal (savedChanges D e) (fun _ v => pyEvalCell (pyStrVal v))]
  exact nodup_keys_savedChanges D e hnd

theorem loadRow_saveRow (types : List EntityType) (D : AttrMap) (e : Ent)
    (ty : EntityType)
    (hfind : types.find? (fun t => t.name == e.typeName) = some ty)
    (hctor : ty.ctorFails
      (LevelEditorScene.rowKwargs (LevelEditorScene.saveRow D e)) = false) :
    LevelEditorScene.loadRow types (LevelEditorScene.saveRow D e)
      = construct ty.name ty.defaults
          (LevelEditorScene.rowKwargs (LevelEditorScene.saveRow D e)) := by
  unfold LevelEditorScene.loadRow
  rw [show (LevelEditorScene.saveRow D e).className = e.typeName from rfl,
    hfind]
  dsimp only
  rw [hctor]
  rfl

theorem attr_construct (name : String) (defaults kwargs : AttrMap)
    (hnd : (kwargs.map Prod.fst).Nodup) (k : String) :
    Ent.attr (construct name defaults kwargs) k
      = match getAttr kwargs k with
        | some v => some v
        | none => getAttr defaults k := by
  unfold construct Ent.attr
  exact getAttr_foldl_setAttr kwargs defaults hnd k

theorem attr_setattr_self (e : Ent) (k : String) (v : Val) :
    Ent.attr (e.setattr k v) k = some v :=
  getAttr_setAttr_self e.attrs k v

theorem attr_setattr_ne (e : Ent) (k k' : String) (v : Val) (h : k ≠ k') :
    Ent.attr (e.setattr k v) k' = Ent.attr e k' :=
  getAttr_setAttr_ne e.attrs k k' v h

theorem getAttr_of_mem_nodup (m : AttrMap)
    (hnd : (m.map Prod.fst).Nodup) (k : String) (v : Val)
    (h : (k, v) ∈ m) : getAttr m k = some v := by
  induction m with
  | nil => simp at h
  | cons kv t ih =>
    obtain ⟨k0, v0⟩ := kv
    have hnd' := List.nodup_cons.mp hnd
    rcases List.mem_cons.mp h with he | hm
    · obtain ⟨rfl, rfl⟩ := Prod.mk.injEq .. ▸ he
      simp [getAttr]
    · have hk : k0 ≠ k := by
        intro he
        apply hnd'.1
        rw [he]
        exact List.mem_map.mpr ⟨(k, v), hm, rfl⟩
      simp only [getAttr, hk, if_false]
      exact ih hnd'.2 hm

theorem serializable_pyStrVal_ne_nil (v : Val)
    (h : serializableVal v = true) : pyStrVal v ≠ "" := by
  cases v with
  | vint n =>
      show String.mk (printIntChars n) ≠ ""
      intro he
      have hd : printIntChars n = [] := by
        simpa [String.ext_iff] using he
      unfold printIntChars at hd
      split at hd
      · simp at hd
      · exact printNatChars_ne_nil _ hd
  | vbool b => cases b <;> decide
  | vvec3 x y z =>
      show String.mk _ ≠ ""
      intro he
      have hd : ('V' :: 'e' :: 'c' :: '3' :: '(' :: (printIntChars x ++
          ',' :: ' ' :: (printIntChars y ++
            ',' :: ' ' :: (printIntChars z ++ [')'])))) = ([] : List Char) := by
        simpa [String.ext_iff] using he
      simp at hd
  | vstr s =>
      have h' : s ≠ "" ∧ (parseLitChars s.data).isNone = true := by
        simpa [serializableVal] using h
      exact h'.1
  | vnone => simp [serializableVal] at h
  | vtransform t => simp [serializableVal] at h
  | vsceneParent => simp [serializableVal] at h

theorem savedChanges_nonempty_cells (D : AttrMap) (e : Ent)
    (hnd : (e.attrs.map Prod.fst).Nodup)
    (hall : e.attrs.all
      (fun kv => (getAttr D kv.1 == some kv.2) || serializableVal kv.2) = true)
    (str : String)
    (hct : getAttr e.attrs "collider_type" = some (Val.vstr str)) :
    ∀ kv ∈ savedChanges D e, pyStrVal kv.2 ≠ "" := by
  intro kv hkv
  have hget := getAttr_of_mem_nodup _ (nodup_keys_savedChanges D e hnd)
    kv.1 kv.2 hkv
  by_cases hk : kv.1 = "collider_type"
  · rw [hk, getAttr_savedChanges_ct D e str hct] at hget
    have hv2 : kv.2 = Val.vstr ("'" ++ str ++ "'") := (Option.some.inj hget).symm
    rw [hv2]
    show ("'" ++ str ++ "'") ≠ ""
    intro he
    have hd : ('\'' :: (str.data ++ ['\''])) = ([] : List Char) := by
      have : ("'" ++ str ++ "'").data = '\'' :: (str.data ++ ['\'']) := by
        rw [string_data_append, string_data_append]
        rfl
      rw [String.ext_iff] at he
      rw [this] at he
      exact he
    simp at hd
  · rw [getAttr_savedChanges_ne_ct D e kv.1 hk hnd] at hget
    cases hea : getAttr e.attrs kv.1 with
    | none => rw [hea] at hget; simp at hget
    | some v0 =>
        rw [hea] at hget
        dsimp only at hget
        by_cases hdv : getAttr D kv.1 = some v0
        · rw [if_pos hdv] at hget; simp at hget
        · rw [if_neg hdv] at hget
          have hv2 : kv.2 = noneToFalse v0 := by simpa using hget.symm
          have hmem := mem_of_getAttr _ _ _ hea
          have hp := List.all_eq_true.mp hall _ hmem
          have h' : getAttr D kv.1 = some v0 ∨ serializableVal v0 = true := by
            simpa using hp
          have hser : serializableVal v0 = true := h'.resolve_left hdv
          have hv0 : v0 ≠ Val.vnone := by
            intro he
            rw [he] at hser
            simp [serializableVal] at hser
          rw [hv2, show noneToFalse v0 = v0 from if_neg hv0]
          exact serializable_pyStrVal_ne_nil v0 hser

theorem parent_not_in_savedChanges (D : AttrMap) (e : Ent)
    (hnd : (e.attrs.map Prod.fst).Nodup)
    (hp : attrVal D e "parent" = some Val.vsceneParent)
    (hD : getAttr D "parent" = some Val.vsceneParent) :
    "parent" ∉ (savedChanges D e).map Prod.fst := by
  rw [← getAttr_eq_none_iff]
  rw [getAttr_savedChanges_ne_ct D e "parent" (by decide) hnd]
  cases hea : getAttr e.attrs "parent" with
  | none => rfl
  | some v =>
      have hv : v = Val.vsceneParent := by
        unfold attrVal at hp
        rw [hea] at hp
        exact Option.some.inj hp
      subst hv
      dsimp only
      rw [if_pos hD]
      rfl

theorem attr_loaded_pre (types : List EntityType) (D : AttrMap) (e : Ent)
    (ty : EntityType) (str : String)
    (hfind : types.find? (fun t => t.name == e.typeName) = some ty)
    (hdef : ty.defaults = D)
    (hctor : ty.ctorFails
      (LevelEditorScene.rowKwargs (LevelEditorScene.saveRow D e)) = false)
    (hnd : (e.attrs.map Prod.fst).Nodup)
    (hall : e.attrs.all
      (fun kv => (getAttr D kv.1 == some kv.2) || serializableVal kv.2) = true)
    (hct : getAttr e.attrs "collider_type" = some (Val.vstr str))
    (hq : ∀ x ∈ str.data, x ≠ '\'')
    (hp : attrVal D e "parent" = some Val.vsceneParent)
    (hDp : getAttr D "parent" = some Val.vsceneParent)
    (k : String) :
    Ent.attr (LevelEditorScene.loadRow types (LevelEditorScene.saveRow D e)) k
      = attrVal D e k := by
  have hnn := savedChanges_nonempty_cells D e hnd hall str hct
  have hpar := parent_not_in_savedChanges D e hnd hp hDp
  have hndk := nodup_keys_rowKwargs_saveRow D e hnd hnn hpar
  rw [loadRow_saveRow types D e ty hfind hctor, hdef,
    attr_construct ty.name D _ hndk k, rowKwargs_saveRow D e hnn hpar]
  by_cases hkp : k = "parent"
  · subst hkp
    rw [getAttr_setAttr_self]
    dsimp only
    exact hp.symm
  · have hmapv : getAttr ((savedChanges D e).map
          (fun kv => (kv.1, pyEvalCell (pyStrVal kv.2)))) k
        = (getAttr (savedChanges D e) k).map (fun v => pyEvalCell (pyStrVal v)) :=
      getAttr_mapVal (savedChanges D e) (fun _ v => pyEvalCell (pyStrVal v)) k
    rw [getAttr_setAttr_ne _ _ _ _ (fun h => hkp h.symm), hmapv]
    by_cases hkc : k = "collider_type"
    · subst hkc
      rw [getAttr_savedChanges_ct D e str hct]
      have hev : pyEvalCell (pyStrVal (Val.vstr ("'" ++ str ++ "'")))
          = Val.vstr str := by
        show pyEvalCell ("'" ++ str ++ "'") = Val.vstr str
        exact pyEvalCell_quoted str hq
      rw [Option.map_some', hev]
      dsimp only
      unfold attrVal
      rw [hct]
    · rw [getAttr_savedChanges_ne_ct D e k hkc hnd]
      cases hea : getAttr e.attrs k with
      | none =>
          rw [Option.map_none', Option.map_none']
          dsimp only
          unfold attrVal
          rw [hea]
      | some v =>
          by_cases hdv : getAttr D k = some v
          · dsimp only
            rw [if_pos hdv, Option.map_none', Option.map_none']
            dsimp only
            unfold attrVal
            rw [hea]
            dsimp only
            exact hdv
          · dsimp only
            rw [if_neg hdv, Option.map_some']
            have hmem := mem_of_getAttr _ _ _ hea
            have hp' := List.all_eq_true.mp hall _ hmem
            have h' : getAttr D k = some v ∨ serializableVal v = true := by
              simpa using hp'
            have hser := h'.resolve_left hdv
            have hv0 : v ≠ Val.vnone := by
              intro he
              rw [he] at hser
              simp [serializableVal] at hser
            rw [show noneToFalse v = v from if_neg hv0, Option.map_some',
              pyEvalCell_pyStrVal v hser]
            dsimp only
            unfold attrVal
            rw [hea]

theorem attr_postLoadFix_of_normalized (e : Ent)
    (hsh : ∃ v, Ent.attr e "shader" = some v ∧ v.truthy = true)
    (hsel : Ent.attr e "selectable" = some (Val.vbool true))
    (hop : Ent.attr e "original_parent" = some Val.vsceneParent)
    (hpp : Ent.attr e "parent" = some Val.vsceneParent)
    (hcts : (Ent.attr e "collider_type").isSome = true)
    (hmodel : Ent.attr e "model" = some (Val.vstr "cube") →
      Ent.attr e "collider" = some (Val.vstr "box") ∧
      Ent.attr e "collision" = some (Val.vbool false))
    (k : String) :
    Ent.attr (LevelEditorScene.postLoadFix e) k = Ent.attr e k := by
  obtain ⟨v, hv, htv⟩ := hsh
  unfold LevelEditorScene.postLoadFix
  dsimp only
  rw [hv]
  dsimp only
  rw [if_pos htv]
  have hpar1 : Ent.attr (e.setattr "selectable" (Val.vbool true)) "parent"
      = some Val.vsceneParent := by
    rw [attr_setattr_ne _ _ _ _ (by decide)]
    exact hpp
  rw [hpar1]
  dsimp only
  have hgen : ∀ k', Ent.attr ((e.setattr "selectable" (Val.vbool true)).setattr
      "original_parent" Val.vsceneParent) k' = Ent.attr e k' := by
    intro k'
    by_cases h1 : k' = "original_parent"
    · subst h1
      rw [attr_setattr_self]
      exact hop.symm
    · rw [attr_setattr_ne _ _ _ _ (fun h => h1 h.symm)]
      by_cases h2 : k' = "selectable"
      · subst h2
        rw [attr_setattr_self]
        exact hsel.symm
      · rw [attr_setattr_ne _ _ _ _ (fun h => h2 h.symm)]
  have hctsome : (Ent.attr ((e.setattr "selectable" (Val.vbool true)).setattr
      "original_parent" Val.vsceneParent) "collider_type").isSome = true := by
    rw [hgen "collider_type"]
    exact hcts
  rw [if_pos hctsome]
  by_cases hm : Ent.attr e "model" = some (Val.vstr "cube")
  · rw [if_pos ((hgen "model").trans hm)]
    obtain ⟨hcol, hcoll⟩ := hmodel hm
    by_cases hk1 : k = "collision"
    · subst hk1
      rw [attr_setattr_self]
      exact hcoll.symm
    · rw [attr_setattr_ne _ _ _ _ (fun h => hk1 h.symm)]
      by_cases hk2 : k = "collider"
      · subst hk2
        rw [attr_setattr_self]
        exact hcol.symm
      · rw [attr_setattr_ne _ _ _ _ (fun h => hk2 h.symm)]
        exact hgen k
  · rw [if_neg (fun h => hm ((hgen "model").symm.trans h))]
    exact hgen k

theorem typeName_postLoadFix (e : Ent) :
    (LevelEditorScene.postLoadFix e).typeName = e.typeName := by
  unfold LevelEditorScene.postLoadFix
  dsimp only
  repeat' split
  all_goals rfl

theorem attrVal_eq_of_attr (D : AttrMap) (e e' : Ent)
    (h : ∀ k, Ent.attr e' k = attrVal D e k) (k : String) :
    attrVal D e' k = attrVal D e k := by
  have hk := h k
  unfold Ent.attr at hk
  unfold attrVal at hk ⊢
  rw [hk]
  cases he : getAttr e.attrs k with
  | some v => rfl
  | none =>
      dsimp only
      cases hD : getAttr D k <;> rfl

theorem changedAt_eq_of_attrVal (D : AttrMap) (e e' : Ent)
    (h : ∀ k, attrVal D e' k = attrVal D e k) (k : String) :
    changedAt D e' k = changedAt D e k := by
  unfold changedAt
  rw [h k]

/-- Round trip of one well-behaved entity through one saved row: after the
post-load fixes, the reloaded entity observes exactly the attribute values
of the original, so its non-default attribute set is unchanged. -/
theorem roundtrip_entity (types : List EntityType) (D : AttrMap) (e : Ent)
    (ty : EntityType)
    (hfind : types.find? (fun t => t.name == e.typeName) = some ty)
    (hdef : ty.defaults = D)
    (hctor : ty.ctorFails
      (LevelEditorScene.rowKwargs (LevelEditorScene.saveRow D e)) = false)
    (hready : roundtripReady D e = true) :
    (∀ k, changedAt D
        (LevelEditorScene.postLoadFix
          (LevelEditorScene.loadRow types (LevelEditorScene.saveRow D e))) k
      = changedAt D e k)
    ∧ (LevelEditorScene.postLoadFix
        (LevelEditorScene.loadRow types (LevelEditorScene.saveRow D e))).typeName
      = e.typeName := by
  have hr := hready
  simp only [roundtripReady, Bool.and_eq_true, decide_eq_true_eq] at hr
  obtain ⟨⟨⟨⟨⟨⟨⟨⟨⟨hnd, hall⟩, hctm⟩, hshm⟩, hselm⟩, hpm⟩, hDpm⟩, hopm⟩,
    hDopm⟩, hcube⟩ := hr
  have hsel : attrVal D e "selectable" = some (Val.vbool true) := by
    simpa using hselm
  have hp : attrVal D e "parent" = some Val.vsceneParent := by simpa using hpm
  have hDp : getAttr D "parent" = some Val.vsceneParent := by simpa using hDpm
  have hop : attrVal D e "original_parent" = some Val.vsceneParent := by
    simpa using hopm
  obtain ⟨str, hct, hq⟩ : ∃ s, getAttr e.attrs "collider_type"
      = some (Val.vstr s) ∧ ∀ x ∈ s.data, x ≠ '\'' := by
    cases hc : getAttr e.attrs "collider_type" with
    | none => rw [hc] at hctm; simp at hctm
    | some v =>
        cases v with
        | vstr s =>
            refine ⟨s, rfl, ?_⟩
            rw [hc] at hctm
            intro x hx
            have hx' := List.all_eq_true.mp hctm x hx
            simpa using hx'
        | vint n => rw [hc] at hctm; simp at hctm
        | vbool b => rw [hc] at hctm; simp at hctm
        | vnone => rw [hc] at hctm; simp at hctm
        | vvec3 x y z => rw [hc] at hctm; simp at hctm
        | vtransform t => rw [hc] at hctm; simp at hctm
        | vsceneParent => rw [hc] at hctm; simp at hctm
  have hpre : ∀ k, Ent.attr
      (LevelEditorScene.loadRow types (LevelEditorScene.saveRow D e)) k
      = attrVal D e k :=
    attr_loaded_pre types D e ty str hfind hdef hctor hnd hall hct hq hp hDp
  have hctv : attrVal D e "collider_type" = some (Val.vstr str) := by
    unfold attrVal
    rw [hct]
  have hsh' : ∃ v, Ent.attr
      (LevelEditorScene.loadRow types (LevelEditorScene.saveRow D e)) "shader"
      = some v ∧ v.truthy = true := by
    cases hc : attrVal D e "shader" with
    | none => rw [hc] at hshm; simp at hshm
    | some v =>
        refine ⟨v, (hpre "shader").trans hc, ?_⟩
        rw [hc] at hshm
        simpa using hshm
  have hfix : ∀ k, Ent.attr (LevelEditorScene.postLoadFix
      (LevelEditorScene.loadRow types (LevelEditorScene.saveRow D e))) k
      = attrVal D e k := by
    intro k
    refine (attr_postLoadFix_of_normalized _ hsh'
      ((hpre "selectable").trans hsel)
      ((hpre "original_parent").trans hop)
      ((hpre "parent").trans hp)
      (by rw [hpre "collider_type", hctv]; rfl)
      ?_ k).trans (hpre k)
    intro hm
    have hm' : attrVal D e "model" = some (Val.vstr "cube") :=
      (hpre "model").symm.trans hm
    have hc2 : attrVal D e "collider" = some (Val.vstr "box")
        ∧ attrVal D e "collision" = some (Val.vbool false) := by
      simpa [hm'] using hcube
    exact ⟨(hpre "collider").trans hc2.1, (hpre "collision").trans hc2.2⟩
  constructor
  · intro k
    exact changedAt_eq_of_attrVal D e _ (attrVal_eq_of_attr D e _ hfix) k
  · rw [typeName_postLoadFix, loadRow_saveRow types D e ty hfind hctor]
    have hb := List.find?_some hfind
    have hb' : (ty.name == e.typeName) = true := hb
    show ty.name = e.typeName
    exact eq_of_beq hb'

/-- C3 amended-theorem witness: on `attrRecState`, undo followed by redo is
the identity. -/
theorem undo_redo_roundtrip_witness :
    Undo.redo (Undo.undo attrRecState) = attrRecState := by
  apply (undo_redo_roundtrip attrRecState
      ⟨by decide, by decide⟩ (by decide)).2
      [(0, "x", Val.vint 1, Val.vint 2)]
  · decide
  · intro c hc
    have : c = (0, "x", Val.vint 1, Val.vint 2) := by simpa using hc
    subst this
    exact ⟨_, rfl, rfl⟩
  · decide

/-- C6 counterexample: an entity whose only non-default attribute is `None`
comes back as `False` after save + load — the entity count survives but the
set of non-default attribute values does not (`save` writes `False` for a
`None` value, lines 510-512). -/
theorem save_load_flattens_none :
    (LevelEditorScene.load noneAttrTypes
        (LevelEditorScene.save noneAttrDefaultsOf noneAttrCell.entities)
        (LevelEditorScene.unload noneAttrCell)).entities.map
      (fun e => changedAt noneAttrDefaults e "texture")
      = [some (Val.vbool false)]
    ∧ noneAttrCell.entities.map
      (fun e => changedAt noneAttrDefaults e "texture") = [some Val.vnone] := by
  decide

/-- C6 (amended): on an unchanged registry of well-behaved entities
(`roundtripReady`: serializable non-default values, a quote-free string
`collider_type`, and the post-load normalisation already in force), saving
the cell and loading the rows back into the unloaded cell reproduces the
entity count, and per entity the class name and every non-default attribute
value.  Without those conditions the round trip alters values — see the
`None` to `False` flattening counterexample. -/
theorem save_load_preserves_changes
    (types : List EntityType) (defaultsOf : String → AttrMap) (s : SceneCell)
    (hpath : s.path = true)
    (hng : ∀ e ∈ s.entities, e.isGizmo = false)
    (hready : ∀ e ∈ s.entities, roundtripReady (defaultsOf e.typeName) e = true)
    (hres : ∀ e ∈ s.entities, ∃ ty,
      types.find? (fun t => t.name == e.typeName) = some ty
      ∧ ty.defaults = defaultsOf e.typeName
      ∧ ty.ctorFails (LevelEditorScene.rowKwargs
          (LevelEditorScene.saveRow (defaultsOf e.typeName) e)) = false) :
    (LevelEditorScene.load types
        (LevelEditorScene.save defaultsOf s.entities)
        (LevelEditorScene.unload s)).entities.length = s.entities.length
    ∧ ∀ (i : Nat) (e : Ent), s.entities[i]? = some e →
        ∃ e', (LevelEditorScene.load types
            (LevelEditorScene.save defaultsOf s.entities)
            (LevelEditorScene.unload s)).entities[i]? = some e'
          ∧ e'.typeName = e.typeName
          ∧ ∀ k, changedAt (defaultsOf e.typeName) e' k
              = changedAt (defaultsOf e.typeName) e k := by
  have hfilter : s.entities.filter (fun e => !e.isGizmo) = s.entities :=
    List.filter_eq_self.mpr (fun e he => by simp [hng e he])
  have hload : (LevelEditorScene.load types
      (LevelEditorScene.save defaultsOf s.entities)
      (LevelEditorScene.unload s)).entities
    = s.entities.map (fun e => LevelEditorScene.postLoadFix
        (LevelEditorScene.loadRow types
          (LevelEditorScene.saveRow (defaultsOf e.typeName) e))) := by
    unfold LevelEditorScene.load LevelEditorScene.unload LevelEditorScene.save
    dsimp only
    rw [hpath, hfilter]
    rw [if_neg (show ¬((!true : Bool) = true) by decide)]
    rw [if_neg (show ¬((false : Bool) = true) by decide)]
    dsimp only
    rw [List.nil_append, List.map_map, List.map_map]
    rfl
  refine ⟨by rw [hload, List.length_map], ?_⟩
  intro i e he
  have hmem : e ∈ s.entities := List.getElem?_mem he
  obtain ⟨ty, hfind, hdef, hctor⟩ := hres e hmem
  have hrt := roundtrip_entity types (defaultsOf e.typeName) e ty hfind hdef
    hctor (hready e hmem)
  refine ⟨LevelEditorScene.postLoadFix (LevelEditorScene.loadRow types
    (LevelEditorScene.saveRow (defaultsOf e.typeName) e)), ?_, hrt.2, hrt.1⟩
  rw [hload, List.getElem?_map, he]
  rfl

/-- C6 amended-theorem witness: the round-trip theorem applied to a
one-entity cell holding a well-behaved entity. -/
theorem save_load_preserves_changes_witness :
    roundCell.path = true
    ∧ (LevelEditorScene.load roundTypes
        (LevelEditorScene.save roundDefaultsOf roundCell.entities)
        (LevelEditorScene.unload roundCell)).entities.length
      = roundCell.entities.length := by
  refine ⟨rfl, ?_⟩
  refine (save_load_preserves_changes roundTypes roundDefaultsOf roundCell
    rfl (by decide) (by decide) ?_).1
  intro e he
  have he' : e = whiteCubeEnt := by simpa [roundCell] using he
  subst he'
  exact ⟨whiteCubeType, rfl, rfl, rfl⟩

end LevelEditorProof

